import Mathlib

/-!
Verification of the cronrunner crontab parsing and execution engine.

This file gives a shallow embedding, in Lean 4, of the core of the
cronrunner repository: the crontab tokenizer (`src/crontab/parser.rs`),
the token data model (`src/crontab/tokens.rs`), the djb2 hash
(`src/crontab/hash.rs`) and the execution engine (`src/crontab.rs`).
Rust strings are modelled as lists of unicode scalar values
(`Str := List Char`); byte-level operations (the hash) work on the UTF-8
encoding.  Rust operations that can panic are modelled with `Option`,
where `none` marks a panic; machine integers are `Nat` with explicit
reduction modulo `2 ^ 64` where the Rust code wraps.
-/

deriving instance DecidableEq for Except

set_option maxRecDepth 16384

namespace Cronrunner

/-- Strings are lists of unicode scalar values, like Rust `char`s. -/
abbrev Str := List Char

/-- Convenience: turn a Lean string literal into a `Str`. -/
def str (s : String) : Str := s.toList

/-- The single-quote character (written numerically on purpose). -/
def squote : Char := Char.ofNat 39

/-- The double-quote character. -/
def dquote : Char := Char.ofNat 34

/-- The left-brace character. -/
def lbrace : Char := Char.ofNat 123

/-- The right-brace character. -/
def rbrace : Char := Char.ofNat 125

/-- Rust `char::is_ascii_whitespace`: space, tab, newline, form feed,
carriage return. -/
def is_ascii_whitespace (c : Char) : Bool :=
  c = ' ' || c = '\t' || c = '\n' || c = '\x0C' || c = '\r'

/-- Rust `char::is_whitespace` (the Unicode `White_Space` property),
used by `str::trim` and `str::trim_start`. -/
def is_unicode_whitespace (c : Char) : Bool :=
  let n := c.toNat
  (9 ≤ n && n ≤ 13) || n = 32 || n = 133 || n = 160 || n = 5760 ||
    (8192 ≤ n && n ≤ 8202) || n = 8232 || n = 8233 || n = 8239 || n = 8287 ||
    n = 12288

/-- Rust `str::trim_start`. -/
def trim_start (s : Str) : Str := s.dropWhile is_unicode_whitespace

/-- Rust `str::trim_end`. -/
def trim_end (s : Str) : Str := (s.reverse.dropWhile is_unicode_whitespace).reverse

/-- Rust `str::trim`. -/
def trim (s : Str) : Str := trim_end (trim_start s)

/-- Strip one trailing carriage return (helper for `rust_lines`). -/
def strip_trailing_cr (s : Str) : Str :=
  if s.getLast? = some '\r' then s.dropLast else s

/-- Rust `str::lines`: split at every newline; a piece that was followed
by a newline has one trailing carriage return stripped; the final line
ending is optional (a trailing empty piece is dropped). -/
def rust_lines (s : Str) : List Str :=
  match (s.splitOn '\n').reverse with
  | [] => []
  | last :: completedRev =>
    let completed := (completedRev.reverse).map strip_trailing_cr
    if last.isEmpty then completed else completed ++ [last]

/-- Rust `str::split_once`: split at the first occurrence of `sep`. -/
def split_once_char (sep : Char) : Str → Option (Str × Str)
  | [] => none
  | c :: rest =>
    if c = sep then some ([], rest)
    else (split_once_char sep rest).map (fun p => (c :: p.1, p.2))

/-! The token data model (`src/crontab/tokens.rs`). -/

/-- Job descriptions wrap their text (source struct `JobDescription`). -/
structure JobDescription where
  text : Str
deriving DecidableEq, Repr

/-- Job sections carry a uid and a title (source struct `JobSection`). -/
structure JobSection where
  uid : Nat
  title : Str
deriving DecidableEq, Repr

/-- A cron job (source struct `CronJob`).  The source field `section`
is a Lean keyword, so it is called `sectn` here. -/
structure CronJob where
  uid : Nat
  fingerprint : Nat
  tag : Option Str
  schedule : Str
  command : Str
  description : Option JobDescription
  sectn : Option JobSection
deriving DecidableEq, Repr

/-- Modelled from the spec: the `IgnoredJob` struct is absent from
`src/crontab/tokens.rs` (only its constructors in `parser.rs` remain);
per the spec it has the same shape as `CronJob` minus `uid` and
`fingerprint`. -/
structure IgnoredJob where
  tag : Option Str
  schedule : Str
  command : Str
  description : Option JobDescription
  sectn : Option JobSection
deriving DecidableEq, Repr

/-- A variable line (source struct `Variable`). -/
structure Variable where
  identifier : Str
  value : Str
deriving DecidableEq, Repr

/-- Comment kinds (source enum `CommentKind`). -/
inductive CommentKind where
  | Regular
  | Description
  | Section
deriving DecidableEq, Repr

/-- A comment line (source struct `Comment`). -/
structure Comment where
  value : Str
  kind : CommentKind
deriving DecidableEq, Repr

/-- An unrecognized line (source struct `Unknown`). -/
structure Unknown where
  value : Str
deriving DecidableEq, Repr

/-- The token type (source enum `Token`).  The `IgnoredJob` variant is
modelled from the spec: the spec lists `Token` as a tagged union over
`CronJob`, `IgnoredJob`, `Variable`, `Comment` and `Unknown`, and
`parser.rs` constructs `Token::IgnoredJob`, but the variant is absent
from the `tokens.rs` file under `src/`. -/
inductive Token where
  | CronJob (job : CronJob)
  | IgnoredJob (job : IgnoredJob)
  | Variable (var : Variable)
  | Comment (comment : Comment)
  | Unknown (unknown : Unknown)
deriving DecidableEq, Repr

/-! The djb2 hash (`src/crontab/hash.rs`) and the UTF-8 byte encoding
it consumes. -/

/-- One step of the hash: `hash.wrapping_shl(5).wrapping_add(hash)
.wrapping_add(byte)` on `u64`. -/
def djb2_step (h b : Nat) : Nat :=
  (((h <<< 5) % 2 ^ 64 + h) % 2 ^ 64 + b) % 2 ^ 64

/-- The djb2 hash of a byte sequence (source fn `djb2`). -/
def djb2 (input : List Nat) : Nat := input.foldl djb2_step 5381

/-- UTF-8 encoding of one unicode scalar value. -/
def utf8_encode_char (c : Char) : List Nat :=
  let n := c.toNat
  if n < 128 then [n]
  else if n < 2048 then [192 + n / 64, 128 + n % 64]
  else if n < 65536 then [224 + n / 4096, 128 + n / 64 % 64, 128 + n % 64]
  else [240 + n / 262144, 128 + n / 4096 % 64, 128 + n / 64 % 64, 128 + n % 64]

/-- UTF-8 encoding of a string, i.e. what `impl AsRef<[u8]> for &str`
hands to `djb2`. -/
def utf8_encode (s : Str) : List Nat := (s.map utf8_encode_char).flatten

/-- One decimal digit character. -/
def digit_char (d : Nat) : Char :=
  if d = 0 then '0' else if d = 1 then '1' else if d = 2 then '2'
  else if d = 3 then '3' else if d = 4 then '4' else if d = 5 then '5'
  else if d = 6 then '6' else if d = 7 then '7' else if d = 8 then '8'
  else '9'

/-- Accumulator loop for decimal formatting.  The first argument is
fuel (structural recursion keeps the function kernel-reducible); any
fuel at least the starting number is enough. -/
def nat_digits_go : Nat → Nat → Str → Str
  | 0, _, acc => acc
  | _ + 1, 0, acc => acc
  | fuel + 1, n + 1, acc =>
    nat_digits_go fuel ((n + 1) / 10) (digit_char ((n + 1) % 10) :: acc)

/-- Decimal formatting of a natural number, as Rust `format!` renders a
`usize`. -/
def nat_digits (n : Nat) : Str :=
  if n = 0 then ['0'] else nat_digits_go n n []

/-- The string hashed for a job fingerprint:
`format!("uid(\x7buid\x7d),command(\x7bcommand\x7d)")`. -/
def fingerprint_input (uid : Nat) (command : Str) : Str :=
  str "uid(" ++ nat_digits uid ++ str "),command(" ++ command ++ str ")"

/-- A job fingerprint: the djb2 hash of the UTF-8 bytes of
`fingerprint_input`. -/
def fingerprint_of (uid : Nat) (command : Str) : Nat :=
  djb2 (utf8_encode (fingerprint_input uid command))

/-! The tokenizer (`src/crontab/parser.rs`).  `Parser` is a method
namespace in the source; its functions are top level here.  Functions
that can panic in Rust return `Option`, with `none` marking the panic. -/

/-- Internal parser state (source struct `ParserState`). -/
structure ParserState where
  tokens : List Token
  job_uid : Nat
  job_section : Option JobSection
deriving DecidableEq, Repr

/-- Line classification: job lines start with a digit, `*` or `@`
(source fn `is_job`; the source unwraps the first character, which its
caller guarantees exists, so the empty case is unreachable). -/
def is_job (line : Str) : Bool :=
  match line with
  | [] => false
  | first_char :: _ => (str "0123456789*@").contains first_char

/-- Line classification: variable lines contain `=` and start with a
letter, underscore or quote character (source fn `is_variable`). -/
def is_variable (line : Str) : Bool :=
  if !line.contains '=' then false
  else
    match line with
    | [] => false
    | first_char :: _ =>
      (str "abcdefghijklmnopqrstuvwxyzABCDEFGHIJKLMNOPQRSTUVWXYZ_"
        ++ [dquote, squote]).contains first_char

/-- Line classification: comment lines start with `#`
(source fn `is_comment`). -/
def is_comment (line : Str) : Bool := line.take 1 = ['#']

/-- The loop of `extract_schedule_from_job_chars`: consume characters,
counting one element at every transition from non-whitespace to
whitespace, until `target` elements are consumed; returns the schedule
and the characters left on the iterator. -/
def extract_schedule_loop : Str → Str → Nat → Nat → Char → Str × Str
  | [], schedule, _, _, _ => (schedule, [])
  | c :: rest, schedule, target, nb_elements, previous_char =>
    if is_ascii_whitespace c then
      if is_ascii_whitespace previous_char then
        extract_schedule_loop rest schedule target nb_elements c
      else if nb_elements + 1 = target then (schedule, rest)
      else extract_schedule_loop rest (schedule ++ [' ']) target (nb_elements + 1) c
    else
      extract_schedule_loop rest (schedule ++ [c]) target nb_elements c

/-- Source fn `extract_schedule_from_job_chars`.  The source `expect`s a
first character (panic on an empty line, modelled as `none`; unreachable
from `parse`, which drops empty lines). -/
def extract_schedule_from_job_chars (chars : Str) : Option (Str × Str) :=
  match chars with
  | [] => none
  | first_char :: rest =>
    let target_schedule_length := if first_char = '@' then 1 else 5
    some (extract_schedule_loop rest [first_char] target_schedule_length 0 first_char)

/-- Source fn `split_schedule_and_command`: extract the schedule, then
trim the rest of the iterator as the command. -/
def split_schedule_and_command (line : Str) : Option (Str × Str) :=
  (extract_schedule_from_job_chars line).map (fun p => (p.1, trim p.2))

/-- Source fn `get_job_description_if_any`: a non-empty `Description`
comment immediately preceding the job. -/
def get_job_description_if_any (previous_token : Option Token) : Option JobDescription :=
  match previous_token with
  | some (Token.Comment ⟨description, CommentKind.Description⟩) =>
    if description.isEmpty then none else some ⟨description⟩
  | _ => none

/-- Source fn `extract_tag_from_job_description`.  The source mutates
its `Option<JobDescription>` argument and returns the tag; here both
results are returned as a pair `(description, tag)`.  The two source
`expect`s are guarded by the `starts_with`/`contains` test, so they can
be discharged by the pattern match. -/
def extract_tag_from_job_description (job_description : Option JobDescription) :
    Option JobDescription × Option Str :=
  match job_description with
  | none => (none, none)
  | some desc =>
    if desc.text.take 2 = ['%', lbrace] && desc.text.contains rbrace then
      match split_once_char rbrace desc.text with
      | none => (some desc, none)
      | some (tag, description) =>
        let description := trim_start description
        let job_description := if description.isEmpty then none
          else some (JobDescription.mk description)
        (job_description, some (tag.drop 2))
    else (some desc, none)

/-- Source fn `is_job_ignored`: a job is ignored when its tag is the
literal string `ignore`. -/
def is_job_ignored (tag : Option Str) : Bool :=
  tag = some (str "ignore")

/-- Source fn `make_job_token`.  `some (Except.error ())` is the source
`Err(())` (empty schedule or command); `none` is a panic inside
schedule extraction. -/
def make_job_token (line : Str) (state : ParserState) : Option (Except Unit Token) :=
  match split_schedule_and_command line with
  | none => none
  | some (schedule, command) =>
    if schedule.isEmpty || command.isEmpty then some (Except.error ())
    else
      let previous_token := state.tokens.getLast?
      let description := get_job_description_if_any previous_token
      let (description, tag) := extract_tag_from_job_description description
      let sectn := state.job_section
      if is_job_ignored tag then
        some (Except.ok (Token.IgnoredJob ⟨tag, schedule, command, description, sectn⟩))
      else
        let uid := state.job_uid
        let fingerprint := fingerprint_of uid command
        some (Except.ok (Token.CronJob
          ⟨uid, fingerprint, tag, schedule, command, description, sectn⟩))

/-- Source fn `make_unknown_token`. -/
def make_unknown_token (line : Str) : Token := Token.Unknown ⟨line⟩

/-- Source fn `make_token_from_job_line`: a `CronJob` bumps the uid
counter, an ignored job does not, and `Err` becomes an `Unknown`
token. -/
def make_token_from_job_line (line : Str) (state : ParserState) :
    Option (Token × ParserState) :=
  match make_job_token line state with
  | none => none
  | some (Except.ok token) =>
    match token with
    | Token.CronJob _ => some (token, { state with job_uid := state.job_uid + 1 })
    | _ => some (token, state)
  | some (Except.error _) => some (make_unknown_token line, state)

/-- Source fn `split_identifier_and_value`: split on the first `=` and
trim both sides (`none` is the source `expect` panic, unreachable
because `is_variable` guarantees an `=`). -/
def split_identifier_and_value (line : Str) : Option (Str × Str) :=
  (split_once_char '=' line).map (fun p => (trim p.1, trim p.2))

/-- Source fn `trim_quotes`: strip one layer of symmetric quotes.  The
source slices `subject[1..len - 1]`; when the subject is a single quote
character that slice has `start > end` and Rust panics, modelled as
`none`. -/
def trim_quotes (subject : Str) : Option Str :=
  if (subject.take 1 = [dquote] && subject.getLast? = some dquote)
      || (subject.take 1 = [squote] && subject.getLast? = some squote) then
    if subject.length < 2 then none
    else some ((subject.drop 1).dropLast)
  else some subject

/-- Source fn `make_variable_token`. -/
def make_variable_token (line : Str) : Option Token :=
  match split_identifier_and_value line with
  | none => none
  | some (identifier, value) =>
    match trim_quotes identifier, trim_quotes value with
    | some identifier, some value => some (Token.Variable ⟨identifier, value⟩)
    | _, _ => none

/-- Source fn `is_section_comment`. -/
def is_section_comment (line : Str) : Bool := line.take 3 = ['#', '#', '#']

/-- Source fn `is_description_comment`. -/
def is_description_comment (line : Str) : Bool :=
  line.take 2 = ['#', '#'] && !is_section_comment line

/-- Source fn `clean_section_comment`. -/
def clean_section_comment (line : Str) : Str := trim_start (line.drop 3)

/-- Source fn `clean_description_comment`. -/
def clean_description_comment (line : Str) : Str := trim_start (line.drop 2)

/-- Source fn `clean_regular_comment`. -/
def clean_regular_comment (line : Str) : Str := trim_start (line.drop 1)

/-- Source fn `make_comment_token`. -/
def make_comment_token (line : Str) : Token :=
  if is_section_comment line then
    Token.Comment ⟨clean_section_comment line, CommentKind.Section⟩
  else if is_description_comment line then
    Token.Comment ⟨clean_description_comment line, CommentKind.Description⟩
  else
    Token.Comment ⟨clean_regular_comment line, CommentKind.Regular⟩

/-- Source fn `get_job_section_if_any`: a non-empty `Section` comment
opens a new section whose uid is one more than the current one. -/
def get_job_section_if_any (comment_token : Token) (state : ParserState) :
    Option JobSection :=
  match comment_token with
  | Token.Comment ⟨sec, CommentKind.Section⟩ =>
    if sec.isEmpty then none
    else
      let uid := match state.job_section with
        | none => 1
        | some s => s.uid + 1
      some ⟨uid, sec⟩
  | _ => none

/-- Source fn `make_token_from_comment_line`. -/
def make_token_from_comment_line (line : Str) (state : ParserState) :
    Token × ParserState :=
  let comment := make_comment_token line
  match get_job_section_if_any comment state with
  | some sec => (comment, { state with job_section := some sec })
  | none => (comment, state)

/-- Source fn `make_token_from_line`: classify the line and build the
corresponding token. -/
def make_token_from_line (line : Str) (state : ParserState) :
    Option (Token × ParserState) :=
  if is_job line then make_token_from_job_line line state
  else if is_variable line then (make_variable_token line).map (fun t => (t, state))
  else if is_comment line then some (make_token_from_comment_line line state)
  else some (make_unknown_token line, state)

/-- The line loop of `Parser::parse`: trim each line, skip empty lines,
and push the token made from every other line. -/
def parse_lines : List Str → ParserState → Option ParserState
  | [], state => some state
  | line :: rest, state =>
    let line := trim line
    if line.isEmpty then parse_lines rest state
    else
      match make_token_from_line line state with
      | none => none
      | some (new_token, state) =>
        parse_lines rest { state with tokens := state.tokens ++ [new_token] }

/-- Source fn `Parser::parse`: tokenize a crontab.  `none` models a
panic (reachable only through `trim_quotes`, see `C1`). -/
def parse (crontab : Str) : Option (List Token) :=
  (parse_lines (rust_lines crontab) ⟨[], 1, none⟩).map ParserState.tokens

/-! The execution engine (`src/crontab.rs`).  The Rust `HashMap` is
modelled as an association list with unique keys; `insert` removes the
old binding and appends, `remove` filters, `get` finds.  The calling
process environment is passed in as `procHome : Option Str` (the `HOME`
variable), and process spawning as an oracle for its outcome. -/

/-- The variable map (`HashMap<String, String>` in the source). -/
abbrev VarMap := List (Str × Str)

/-- `HashMap::get` (by key). -/
def map_get (m : VarMap) (k : Str) : Option Str :=
  (m.find? (fun p => p.1 = k)).map (fun p => p.2)

/-- `HashMap::remove` (drop the binding for `k`). -/
def map_remove (m : VarMap) (k : Str) : VarMap :=
  m.filter (fun p => !(p.1 = k : Bool))

/-- `HashMap::insert` (overwrite the binding for `k`). -/
def map_insert (m : VarMap) (k v : Str) : VarMap :=
  map_remove m k ++ [(k, v)]

/-- Source const `DEFAULT_SHELL`. -/
def DEFAULT_SHELL : Str := str "/bin/sh"

/-- Source struct `ShellCommand`. -/
structure ShellCommand where
  env : VarMap
  shell : Str
  home : Str
  command : Str
deriving DecidableEq, Repr

/-- Source enum `RunResultDetail`. -/
inductive RunResultDetail where
  | DidRun (exit_code : Option Int)
  | DidNotRun (reason : Str)
  | IsRunning (pid : Nat)
deriving DecidableEq, Repr

/-- Source struct `RunResult`. -/
structure RunResult where
  was_successful : Bool
  detail : RunResultDetail
deriving DecidableEq, Repr

/-- Source struct `Crontab`: the token sequence and the optional
overridden base environment (`set_env`). -/
structure Crontab where
  tokens : List Token
  env : Option VarMap
deriving DecidableEq, Repr

/-- Source fn `Crontab::new`. -/
def Crontab.new (tokens : List Token) : Crontab := ⟨tokens, none⟩

/-- Source fn `Crontab::jobs`: all the jobs, and only the jobs. -/
def Crontab.jobs (crontab : Crontab) : List CronJob :=
  crontab.tokens.filterMap (fun token =>
    match token with
    | Token.CronJob job => some job
    | _ => none)

/-- Source fn `Crontab::has_runnable_jobs`. -/
def Crontab.has_runnable_jobs (crontab : Crontab) : Bool :=
  crontab.tokens.any (fun token =>
    match token with
    | Token.CronJob _ => true
    | _ => false)

/-- Source fn `Crontab::has_job` (structural equality on all fields). -/
def Crontab.has_job (crontab : Crontab) (job : CronJob) : Bool :=
  crontab.jobs.any (fun x => x = job)

/-- Source fn `Crontab::get_job_from_uid`. -/
def Crontab.get_job_from_uid (crontab : Crontab) (uid : Nat) : Option CronJob :=
  crontab.jobs.find? (fun job => job.uid = uid)

/-- Source fn `Crontab::get_job_from_fingerprint`. -/
def Crontab.get_job_from_fingerprint (crontab : Crontab) (fingerprint : Nat) :
    Option CronJob :=
  crontab.jobs.find? (fun job => job.fingerprint = fingerprint)

/-- Source fn `Crontab::get_job_from_tag`. -/
def Crontab.get_job_from_tag (crontab : Crontab) (tag : Str) : Option CronJob :=
  crontab.jobs.find? (fun job => job.tag = some tag)

/-- Source fn `Crontab::set_env`: replace the base environment. -/
def Crontab.set_env (crontab : Crontab) (env : VarMap) : Crontab :=
  { crontab with env := some env }

/-- Source fn `Crontab::ensure_job_exists`. -/
def Crontab.ensure_job_exists (crontab : Crontab) (job : CronJob) : Except Str Unit :=
  if !crontab.has_job job then
    Except.error (str "The given job is not in the crontab.")
  else Except.ok ()

/-- The loop of `Crontab::extract_variables`: insert every variable,
stop at the first token structurally equal to the target job. -/
def extract_variables_loop : List Token → CronJob → VarMap → VarMap
  | [], _, vars => vars
  | token :: rest, target_job, vars =>
    match token with
    | Token.Variable var =>
      extract_variables_loop rest target_job
        (map_insert vars var.identifier var.value)
    | Token.CronJob job =>
      if job = target_job then vars
      else extract_variables_loop rest target_job vars
    | _ => extract_variables_loop rest target_job vars

/-- Source fn `Crontab::extract_variables`. -/
def Crontab.extract_variables (crontab : Crontab) (target_job : CronJob) : VarMap :=
  extract_variables_loop crontab.tokens target_job []

/-- Source fn `Crontab::determine_shell_to_use`: remove `SHELL` from the
environment and use it, or default.  Returns the shell and the updated
map (the source mutates the map). -/
def determine_shell_to_use (env : VarMap) : Str × VarMap :=
  match map_get env (str "SHELL") with
  | some shell => (shell, map_remove env (str "SHELL"))
  | none => (DEFAULT_SHELL, env)

/-- Source fn `Crontab::get_home_directory`: read `HOME` from the
calling process environment. -/
def get_home_directory (procHome : Option Str) : Except Str Str :=
  match procHome with
  | some home_directory => Except.ok home_directory
  | none => Except.error (str "Could not read Home directory from environment.")

/-- Source fn `Crontab::determine_home_to_use`: remove `HOME` from the
environment and use it, or fall back on the process environment. -/
def determine_home_to_use (env : VarMap) (procHome : Option Str) :
    Except Str (Str × VarMap) :=
  match map_get env (str "HOME") with
  | some home => Except.ok (home, map_remove env (str "HOME"))
  | none =>
    match get_home_directory procHome with
    | Except.ok home => Except.ok (home, env)
    | Except.error e => Except.error e

/-- Source fn `Crontab::make_shell_command`. -/
def Crontab.make_shell_command (crontab : Crontab) (procHome : Option Str)
    (job : CronJob) : Except Str ShellCommand :=
  match crontab.ensure_job_exists job with
  | Except.error e => Except.error e
  | Except.ok () =>
    let env := crontab.extract_variables job
    let (shell, env) := determine_shell_to_use env
    match determine_home_to_use env procHome with
    | Except.error e => Except.error e
    | Except.ok (home, env) =>
      Except.ok ⟨env, shell, home, job.command⟩

/-- The `std::process::Command` built by `prepare_command`: program,
optional replaced base environment (`env_clear` + `envs` when `set_env`
was used), additional environment, working directory and arguments. -/
structure PreparedCommand where
  program : Str
  base_env : Option VarMap
  envs : VarMap
  current_dir : Str
  args : List Str
deriving DecidableEq, Repr

/-- Source fn `Crontab::prepare_command`. -/
def Crontab.prepare_command (crontab : Crontab) (procHome : Option Str)
    (job : CronJob) : Except RunResult PreparedCommand :=
  match crontab.make_shell_command procHome job with
  | Except.error reason =>
    Except.error ⟨false, RunResultDetail.DidNotRun reason⟩
  | Except.ok shell_command =>
    Except.ok ⟨shell_command.shell, crontab.env, shell_command.env,
      shell_command.home, [str "-c", shell_command.command]⟩

/-- The outcome of the synchronous spawn in `Crontab::run`, an oracle
for the external process: it failed to start, or it exited with an
optional code (`none` when killed by a signal). -/
inductive SpawnOutcome where
  | failed
  | exited (code : Option Int)
deriving DecidableEq, Repr

/-- Source fn `Crontab::run` (synchronous).  Success means the process
ran and exited with code zero. -/
def Crontab.run (crontab : Crontab) (procHome : Option Str)
    (spawn : SpawnOutcome) (job : CronJob) : RunResult :=
  match crontab.prepare_command procHome job with
  | Except.error res => res
  | Except.ok _command =>
    match spawn with
    | SpawnOutcome.exited code =>
      ⟨code = some 0, RunResultDetail.DidRun code⟩
    | SpawnOutcome.failed =>
      ⟨false, RunResultDetail.DidNotRun
        (str "Failed to run command (does shell exist?).")⟩

/-- The outcome of the detached spawn in `Crontab::run_detached`. -/
inductive DetachedSpawnOutcome where
  | failed
  | spawned (pid : Nat)
deriving DecidableEq, Repr

/-- Source fn `Crontab::run_detached`: returns right after the spawn;
`was_successful` is always `false`. -/
def Crontab.run_detached (crontab : Crontab) (procHome : Option Str)
    (spawn : DetachedSpawnOutcome) (job : CronJob) : RunResult :=
  match crontab.prepare_command procHome job with
  | Except.error res => res
  | Except.ok _command =>
    match spawn with
    | DetachedSpawnOutcome.spawned pid =>
      ⟨false, RunResultDetail.IsRunning pid⟩
    | DetachedSpawnOutcome.failed =>
      ⟨false, RunResultDetail.DidNotRun
        (str "Failed to run command (does shell exist?).")⟩

/-! Spec-side definitions: functions written from the specification
text, to be compared with the source functions embedded above. -/

/-- Spec: the first `CronJob` token in token-sequence order satisfying
a predicate; tokens of any other kind never match. -/
def first_cronjob_matching (p : CronJob → Bool) : List Token → Option CronJob
  | [] => none
  | Token.CronJob job :: rest =>
    if p job then some job else first_cronjob_matching p rest
  | _ :: rest => first_cronjob_matching p rest

/-- Spec: the value of the last declaration of `identifier` among the
`Variable` tokens of a token list (last write wins), `none` when there
is none. -/
def last_declared : List Token → Str → Option Str
  | [], _ => none
  | token :: rest, identifier =>
    match last_declared rest identifier with
    | some value => some value
    | none =>
      match token with
      | Token.Variable var =>
        if var.identifier = identifier then some var.value else none
      | _ => none

/-! Helper lemmas about the variable map. -/

theorem map_get_nil (id : Str) : map_get [] id = none := rfl

theorem map_get_cons (p : Str × Str) (m : VarMap) (id : Str) :
    map_get (p :: m) id = if p.1 = id then some p.2 else map_get m id := by
  simp only [map_get, List.find?_cons]
  by_cases h : p.1 = id <;> simp [h]

theorem map_get_append (m m2 : VarMap) (id : Str) :
    map_get (m ++ m2) id =
      match map_get m id with
      | some v => some v
      | none => map_get m2 id := by
  induction m with
  | nil => simp [map_get_nil]
  | cons p m ih =>
    rw [List.cons_append, map_get_cons, map_get_cons]
    by_cases h : p.1 = id <;> simp [h, ih]

theorem map_get_map_remove (m : VarMap) (k id : Str) :
    map_get (map_remove m k) id = if id = k then none else map_get m id := by
  induction m with
  | nil => simp [map_remove, map_get_nil]
  | cons p m ih =>
    simp only [map_remove, List.filter_cons] at ih ⊢
    by_cases hk : p.1 = k
    · rw [if_neg (by simp [hk]), ih, map_get_cons]
      by_cases hid : id = k
      · simp [hid]
      · have hp : ¬p.1 = id := fun h => hid (h ▸ hk)
        simp [hid, hp]
    · rw [if_pos (by simp [hk]), map_get_cons, map_get_cons, ih]
      by_cases hp : p.1 = id
      · have hidk : ¬id = k := fun h => hk (hp.trans h)
        simp [hp, hidk]
      · simp [hp]

theorem map_get_map_insert (m : VarMap) (k v id : Str) :
    map_get (map_insert m k v) id = if id = k then some v else map_get m id := by
  rw [map_insert, map_get_append, map_get_map_remove]
  by_cases h : id = k
  · simp [h, map_get_cons]
  · simp only [if_neg h]
    cases hm : map_get m id with
    | some w => rfl
    | none =>
      rw [map_get_cons, if_neg (fun hh => h hh.symm)]
      rfl

theorem map_remove_of_get_none (m : VarMap) (k : Str) (h : map_get m k = none) :
    map_remove m k = m := by
  induction m with
  | nil => rfl
  | cons p m ih =>
    rw [map_get_cons] at h
    by_cases hp : p.1 = k
    · simp [hp] at h
    · rw [if_neg hp] at h
      rw [map_remove, List.filter_cons, if_pos (by simp [hp])]
      have hm := ih h
      rw [map_remove] at hm
      rw [hm]

/-! Claim C10: the lookup functions. -/

theorem jobs_find?_eq_first_cronjob_matching (p : CronJob → Bool)
    (tokens : List Token) (env : Option VarMap) :
    ((Crontab.mk tokens env).jobs).find? p = first_cronjob_matching p tokens := by
  induction tokens with
  | nil => rfl
  | cons t rest ih =>
    cases t with
    | CronJob job =>
      simp only [Crontab.jobs, List.filterMap_cons] at ih ⊢
      rw [List.find?_cons]
      cases hp : p job <;> simp [first_cronjob_matching, hp, ih]
    | IgnoredJob job => simpa [Crontab.jobs, List.filterMap_cons,
        first_cronjob_matching] using ih
    | Variable var => simpa [Crontab.jobs, List.filterMap_cons,
        first_cronjob_matching] using ih
    | Comment comment => simpa [Crontab.jobs, List.filterMap_cons,
        first_cronjob_matching] using ih
    | Unknown unknown => simpa [Crontab.jobs, List.filterMap_cons,
        first_cronjob_matching] using ih

theorem first_cronjob_matching_eq_none_iff (p : CronJob → Bool)
    (tokens : List Token) :
    first_cronjob_matching p tokens = none ↔
      ∀ job, Token.CronJob job ∈ tokens → p job = false := by
  induction tokens with
  | nil => simp [first_cronjob_matching]
  | cons t rest ih =>
    cases t with
    | CronJob job =>
      cases hp : p job
      · simp only [first_cronjob_matching, hp, Bool.false_eq_true, if_false, ih]
        constructor
        · intro h j hj
          rcases List.mem_cons.mp hj with hj | hj
          · cases hj; exact hp
          · exact h j hj
        · intro h j hj
          exact h j (List.mem_cons_of_mem _ hj)
      · simp only [first_cronjob_matching, hp, if_true]
        constructor
        · intro h; cases h
        · intro h
          have := h job (List.mem_cons_self _ _)
          rw [hp] at this
          cases this
    | IgnoredJob job => simp [first_cronjob_matching, ih]
    | Variable var => simp [first_cronjob_matching, ih]
    | Comment comment => simp [first_cronjob_matching, ih]
    | Unknown unknown => simp [first_cronjob_matching, ih]

/-- C10: for every `Crontab`, built from an arbitrary token vector (no
uniqueness of uids, fingerprints or tags assumed), `get_job_from_uid`,
`get_job_from_fingerprint` and `get_job_from_tag` return the first
`CronJob` token in token-sequence order whose uid / fingerprint / tag
equals the key (the tag must be present and equal), `none` when no
`CronJob` token matches, and tokens of other kinds are never returned
and never match. -/
theorem C10_lookups_return_first_matching_cronjob :
    (∀ (tokens : List Token) (env : Option VarMap) (uid : Nat),
      (Crontab.mk tokens env).get_job_from_uid uid
        = first_cronjob_matching (fun job => job.uid = uid) tokens)
  ∧ (∀ (tokens : List Token) (env : Option VarMap) (fingerprint : Nat),
      (Crontab.mk tokens env).get_job_from_fingerprint fingerprint
        = first_cronjob_matching (fun job => job.fingerprint = fingerprint) tokens)
  ∧ (∀ (tokens : List Token) (env : Option VarMap) (tag : Str),
      (Crontab.mk tokens env).get_job_from_tag tag
        = first_cronjob_matching (fun job => job.tag = some tag) tokens)
  ∧ (∀ (p : CronJob → Bool) (tokens : List Token),
      first_cronjob_matching p tokens = none ↔
        ∀ job, Token.CronJob job ∈ tokens → p job = false) := by
  refine ⟨?_, ?_, ?_, ?_⟩
  · intro tokens env uid
    exact jobs_find?_eq_first_cronjob_matching _ tokens env
  · intro tokens env fingerprint
    exact jobs_find?_eq_first_cronjob_matching _ tokens env
  · intro tokens env tag
    exact jobs_find?_eq_first_cronjob_matching _ tokens env
  · exact first_cronjob_matching_eq_none_iff

/-! Claim C1: the single-quote panic in `trim_quotes`. -/

/-- C1: the claim states that `Parser::parse` never panics, in
particular not while quote-stripping a variable whose identifier or
value is a single quote character.  The code disagrees: on the line
made of a quote, an equals sign and `x`, the identifier is the lone
quote character, `trim_quotes` takes the slice `subject[1..0]`, and
Rust panics (modelled as `none`). -/
theorem C1_parse_panics_on_lone_quote_identifier :
    parse [squote, '=', 'x'] = none := by decide

/-! Claims C8 and C9: shell and home resolution, and the run
precondition failures. -/

theorem determine_shell_eq (env : VarMap) :
    determine_shell_to_use env
      = ((map_get env (str "SHELL")).getD DEFAULT_SHELL,
          map_remove env (str "SHELL")) := by
  unfold determine_shell_to_use
  cases hS : map_get env (str "SHELL") with
  | some shell => simp
  | none => simp [map_remove_of_get_none env _ hS]

theorem determine_home_eq (env : VarMap) (procHome : Option Str) :
    determine_home_to_use env procHome
      = match map_get env (str "HOME"), procHome with
        | some home, _ => Except.ok (home, map_remove env (str "HOME"))
        | none, some home => Except.ok (home, map_remove env (str "HOME"))
        | none, none =>
          Except.error (str "Could not read Home directory from environment.") := by
  unfold determine_home_to_use get_home_directory
  cases hH : map_get env (str "HOME") with
  | some home => rfl
  | none => cases procHome <;> simp [map_remove_of_get_none env _ hH]

theorem make_shell_command_resolution (crontab : Crontab) (procHome : Option Str)
    (job : CronJob) (hjob : crontab.has_job job = true) :
    crontab.make_shell_command procHome job =
      (let vars := crontab.extract_variables job
       let shell := (map_get vars (str "SHELL")).getD DEFAULT_SHELL
       let env := map_remove (map_remove vars (str "SHELL")) (str "HOME")
       match map_get vars (str "HOME"), procHome with
       | some home, _ => Except.ok ⟨env, shell, home, job.command⟩
       | none, some home => Except.ok ⟨env, shell, home, job.command⟩
       | none, none =>
         Except.error (str "Could not read Home directory from environment.")) := by
  have hne : (str "HOME") = (str "SHELL") ↔ False := by simp [str]
  unfold Crontab.make_shell_command Crontab.ensure_job_exists
  rw [hjob]
  simp only [Bool.not_true, Bool.false_eq_true, if_false]
  rw [determine_shell_eq, determine_home_eq, map_get_map_remove]
  simp only [hne, if_false]
  cases hH : map_get (crontab.extract_variables job) (str "HOME") with
  | some home => rfl
  | none =>
    cases procHome with
    | some home =>
      have : map_get (map_remove (crontab.extract_variables job) (str "SHELL"))
          (str "HOME") = none := by
        rw [map_get_map_remove]
        simp [hne, hH]
      rw [map_remove_of_get_none _ _ this]
    | none => rfl

/-- C8: for every crontab and target job whose presence check passes,
the shell is the removed `SHELL` entry of the scoped variables, or
`/bin/sh` when there is none; the working directory is the removed
`HOME` entry, else the calling process `HOME`, whose absence yields
the descriptive error (so nothing is spawned); and the remaining
entries, with `SHELL` and `HOME` removed, become the child process's
additional environment variables. -/
theorem C8_shell_and_home_resolution (crontab : Crontab) (procHome : Option Str)
    (job : CronJob) (hjob : crontab.has_job job = true) :
    crontab.make_shell_command procHome job =
      (let vars := crontab.extract_variables job
       let shell := (map_get vars (str "SHELL")).getD DEFAULT_SHELL
       let env := map_remove (map_remove vars (str "SHELL")) (str "HOME")
       match map_get vars (str "HOME"), procHome with
       | some home, _ => Except.ok ⟨env, shell, home, job.command⟩
       | none, some home => Except.ok ⟨env, shell, home, job.command⟩
       | none, none =>
         Except.error (str "Could not read Home directory from environment.")) :=
  make_shell_command_resolution crontab procHome job hjob

/-- C8 witness: a crontab declaring `SHELL`, `HOME` and `FOO` before
the job resolves to a bash shell, a root home, and an environment
holding only `FOO`. -/
theorem C8_shell_and_home_resolution_witness :
    Crontab.make_shell_command
      ⟨[Token.Variable ⟨str "SHELL", str "/bin/bash"⟩,
        Token.Variable ⟨str "HOME", str "/root"⟩,
        Token.Variable ⟨str "FOO", str "bar"⟩,
        Token.CronJob ⟨1, 0, none, str "@daily", str "backup", none, none⟩], none⟩
      none ⟨1, 0, none, str "@daily", str "backup", none, none⟩
      = Except.ok ⟨[(str "FOO", str "bar")], str "/bin/bash", str "/root",
          str "backup"⟩ :=
  (C8_shell_and_home_resolution
    ⟨[Token.Variable ⟨str "SHELL", str "/bin/bash"⟩,
      Token.Variable ⟨str "HOME", str "/root"⟩,
      Token.Variable ⟨str "FOO", str "bar"⟩,
      Token.CronJob ⟨1, 0, none, str "@daily", str "backup", none, none⟩], none⟩
    none ⟨1, 0, none, str "@daily", str "backup", none, none⟩ (by decide)).trans
    (by decide)

/-- C9: for both `run` and `run_detached`, a target job missing from
the token sequence, or a `HOME` resolvable neither from the scoped
variables nor from the process environment, yields a `RunResult` with
`was_successful = false` and a `DidNotRun` detail carrying a
descriptive reason; an error value is returned (never a panic), no
spawn outcome is consulted, and the crontab value itself (its token
sequence and stored environment) is untouched, the run functions being
pure functions of it. -/
theorem C9_precondition_failures_are_did_not_run :
    ∀ (crontab : Crontab) (procHome : Option Str) (spawn : SpawnOutcome)
      (spawnDetached : DetachedSpawnOutcome) (job : CronJob),
    (crontab.has_job job = false →
      crontab.run procHome spawn job
        = ⟨false, RunResultDetail.DidNotRun
            (str "The given job is not in the crontab.")⟩
      ∧ crontab.run_detached procHome spawnDetached job
        = ⟨false, RunResultDetail.DidNotRun
            (str "The given job is not in the crontab.")⟩)
  ∧ (crontab.has_job job = true →
      map_get (crontab.extract_variables job) (str "HOME") = none →
      procHome = none →
      crontab.run procHome spawn job
        = ⟨false, RunResultDetail.DidNotRun
            (str "Could not read Home directory from environment.")⟩
      ∧ crontab.run_detached procHome spawnDetached job
        = ⟨false, RunResultDetail.DidNotRun
            (str "Could not read Home directory from environment.")⟩) := by
  intro crontab procHome spawn spawnDetached job
  constructor
  · intro hno
    have hcmd : crontab.make_shell_command procHome job
        = Except.error (str "The given job is not in the crontab.") := by
      unfold Crontab.make_shell_command Crontab.ensure_job_exists
      rw [hno]
      rfl
    constructor
    · unfold Crontab.run Crontab.prepare_command
      rw [hcmd]
    · unfold Crontab.run_detached Crontab.prepare_command
      rw [hcmd]
  · intro hjob hH hproc
    have hcmd : crontab.make_shell_command procHome job
        = Except.error (str "Could not read Home directory from environment.") := by
      rw [make_shell_command_resolution crontab procHome job hjob]
      simp only [hH, hproc]
    constructor
    · unfold Crontab.run Crontab.prepare_command
      rw [hcmd]
    · unfold Crontab.run_detached Crontab.prepare_command
      rw [hcmd]

/-! Claim C5: variable scoping. -/

theorem extract_variables_loop_stops (target : CronJob) (post : List Token) :
    ∀ (pre : List Token) (acc : VarMap),
    (∀ t ∈ pre, t ≠ Token.CronJob target) →
    extract_variables_loop (pre ++ Token.CronJob target :: post) target acc
      = extract_variables_loop pre target acc := by
  intro pre
  induction pre with
  | nil =>
    intro acc _
    simp [extract_variables_loop]
  | cons t rest ih =>
    intro acc hpre
    have ht : t ≠ Token.CronJob target := hpre t (List.mem_cons_self _ _)
    have hrest : ∀ x ∈ rest, x ≠ Token.CronJob target :=
      fun x hx => hpre x (List.mem_cons_of_mem _ hx)
    cases t with
    | CronJob job =>
      have hne : ¬job = target := fun h => ht (by rw [h])
      simp only [List.cons_append, extract_variables_loop, if_neg hne]
      exact ih _ hrest
    | IgnoredJob job => exact ih _ hrest
    | Variable var => exact ih _ hrest
    | Comment comment => exact ih _ hrest
    | Unknown unknown => exact ih _ hrest

theorem extract_variables_loop_get (target : CronJob) (identifier : Str) :
    ∀ (pre : List Token) (acc : VarMap),
    (∀ t ∈ pre, t ≠ Token.CronJob target) →
    map_get (extract_variables_loop pre target acc) identifier
      = match last_declared pre identifier with
        | some value => some value
        | none => map_get acc identifier := by
  intro pre
  induction pre with
  | nil => intro acc _; rfl
  | cons t rest ih =>
    intro acc hpre
    have ht : t ≠ Token.CronJob target := hpre t (List.mem_cons_self _ _)
    have hrest : ∀ x ∈ rest, x ≠ Token.CronJob target :=
      fun x hx => hpre x (List.mem_cons_of_mem _ hx)
    cases t with
    | Variable var =>
      show map_get (extract_variables_loop rest target
        (map_insert acc var.identifier var.value)) identifier = _
      rw [ih _ hrest]
      cases hl : last_declared rest identifier with
      | some value => simp [last_declared, hl]
      | none =>
        rw [map_get_map_insert]
        simp only [last_declared, hl]
        by_cases h : var.identifier = identifier
        · simp [h]
        · have h2 : ¬identifier = var.identifier := fun hh => h hh.symm
          simp [h, h2]
    | CronJob job =>
      have hne : ¬job = target := fun h => ht (by rw [h])
      show map_get (extract_variables_loop ((Token.CronJob job) :: rest) target acc)
        identifier = _
      simp only [extract_variables_loop, if_neg hne]
      rw [ih _ hrest]
      cases hl : last_declared rest identifier <;> simp [last_declared, hl]
    | IgnoredJob job =>
      rw [show extract_variables_loop ((Token.IgnoredJob job) :: rest) target acc
          = extract_variables_loop rest target acc from rfl, ih _ hrest]
      cases hl : last_declared rest identifier <;> simp [last_declared, hl]
    | Comment comment =>
      rw [show extract_variables_loop ((Token.Comment comment) :: rest) target acc
          = extract_variables_loop rest target acc from rfl, ih _ hrest]
      cases hl : last_declared rest identifier <;> simp [last_declared, hl]
    | Unknown unknown =>
      rw [show extract_variables_loop ((Token.Unknown unknown) :: rest) target acc
          = extract_variables_loop rest target acc from rfl, ih _ hrest]
      cases hl : last_declared rest identifier <;> simp [last_declared, hl]

/-- C5: the environment resolved for a target job scans the token
sequence from the beginning, inserting every `Variable` token's value
into a map keyed by identifier (last write wins) and stopping at the
first `CronJob` structurally equal to the target: for any decomposition
`pre ++ target :: post` where `pre` holds no token equal to the target,
a lookup in the resolved environment returns exactly the last
declaration in `pre` — variables after the target job never contribute,
variables before it always do, and intervening ignored jobs or jobs
differing only in uid or fingerprint are scanned through. -/
theorem C5_variable_scoping (pre post : List Token) (env : Option VarMap)
    (target : CronJob) (hpre : ∀ t ∈ pre, t ≠ Token.CronJob target)
    (identifier : Str) :
    map_get ((Crontab.mk (pre ++ Token.CronJob target :: post)
        env).extract_variables target) identifier
      = last_declared pre identifier := by
  unfold Crontab.extract_variables
  rw [extract_variables_loop_stops target post pre [] hpre,
    extract_variables_loop_get target identifier pre [] hpre]
  cases last_declared pre identifier <;> rfl

/-- C5 witness: the target sees the second of two declarations of `A`
made before it, across an intervening ignored job and a job with the
same schedule and command but another uid, and not the declaration
after it. -/
theorem C5_variable_scoping_witness :
    map_get ((Crontab.mk
        ([Token.Variable ⟨str "A", str "one"⟩,
          Token.CronJob ⟨2, 0, none, str "@daily", str "x", none, none⟩,
          Token.Variable ⟨str "A", str "two"⟩,
          Token.IgnoredJob ⟨some (str "ignore"), str "@daily", str "x", none, none⟩]
          ++ Token.CronJob ⟨1, 0, none, str "@daily", str "x", none, none⟩
            :: [Token.Variable ⟨str "A", str "three"⟩])
        none).extract_variables
        ⟨1, 0, none, str "@daily", str "x", none, none⟩) (str "A")
      = some (str "two") :=
  (C5_variable_scoping
    [Token.Variable ⟨str "A", str "one"⟩,
      Token.CronJob ⟨2, 0, none, str "@daily", str "x", none, none⟩,
      Token.Variable ⟨str "A", str "two"⟩,
      Token.IgnoredJob ⟨some (str "ignore"), str "@daily", str "x", none, none⟩]
    [Token.Variable ⟨str "A", str "three"⟩] none
    ⟨1, 0, none, str "@daily", str "x", none, none⟩ (by decide)
    (str "A")).trans (by decide)

/-! Claims C3 and C4: fingerprints and uid numbering.  Both rest on a
characterization of the tokens `make_token_from_line` can produce and
on an invariant carried through the `parse_lines` loop. -/

/-- The uid of a `CronJob` token, `none` for every other token. -/
def cron_job_uid : Token → Option Nat
  | Token.CronJob job => some job.uid
  | _ => none

/-- Whether a token is a `CronJob`. -/
def is_cron_job_token : Token → Bool
  | Token.CronJob _ => true
  | _ => false

theorem make_job_token_ok_cron (line : Str) (state : ParserState) (job : CronJob)
    (h : make_job_token line state = some (Except.ok (Token.CronJob job))) :
    job.uid = state.job_uid
      ∧ job.fingerprint = fingerprint_of job.uid job.command := by
  unfold make_job_token at h
  split at h
  · cases h
  · split at h
    · cases h
    · simp only [] at h
      split at h
      · cases h
      · have h1 := Except.ok.inj (Option.some.inj h)
        cases h1
        exact ⟨rfl, rfl⟩

theorem make_comment_token_shape (line : Str) :
    ∃ c, make_comment_token line = Token.Comment c := by
  unfold make_comment_token
  split
  · exact ⟨_, rfl⟩
  · split
    · exact ⟨_, rfl⟩
    · exact ⟨_, rfl⟩

theorem make_variable_token_shape (line : Str) (t : Token)
    (h : make_variable_token line = some t) : ∃ var, t = Token.Variable var := by
  unfold make_variable_token at h
  split at h
  · cases h
  · split at h
    · exact ⟨_, (Option.some.inj h).symm⟩
    · cases h

theorem make_token_from_line_spec (line : Str) (state state2 : ParserState)
    (t : Token) (h : make_token_from_line line state = some (t, state2)) :
    state2.tokens = state.tokens
      ∧ ((∃ job : CronJob, t = Token.CronJob job ∧ job.uid = state.job_uid
          ∧ job.fingerprint = fingerprint_of job.uid job.command
          ∧ state2.job_uid = state.job_uid + 1)
        ∨ (cron_job_uid t = none ∧ state2.job_uid = state.job_uid)) := by
  unfold make_token_from_line at h
  by_cases hj : is_job line = true
  · rw [if_pos hj] at h
    unfold make_token_from_job_line at h
    cases hm : make_job_token line state with
    | none => rw [hm] at h; cases h
    | some r =>
      rw [hm] at h
      cases r with
      | error e =>
        have := Option.some.inj h
        cases this
        exact ⟨rfl, Or.inr ⟨rfl, rfl⟩⟩
      | ok token =>
        cases token with
        | CronJob job =>
          have := Option.some.inj h
          cases this
          obtain ⟨huid, hfp⟩ := make_job_token_ok_cron line state job hm
          exact ⟨rfl, Or.inl ⟨job, rfl, huid, hfp, rfl⟩⟩
        | IgnoredJob job =>
          have := Option.some.inj h
          cases this
          exact ⟨rfl, Or.inr ⟨rfl, rfl⟩⟩
        | Variable var =>
          have := Option.some.inj h
          cases this
          exact ⟨rfl, Or.inr ⟨rfl, rfl⟩⟩
        | Comment comment =>
          have := Option.some.inj h
          cases this
          exact ⟨rfl, Or.inr ⟨rfl, rfl⟩⟩
        | Unknown unknown =>
          have := Option.some.inj h
          cases this
          exact ⟨rfl, Or.inr ⟨rfl, rfl⟩⟩
  · rw [if_neg hj] at h
    by_cases hv : is_variable line = true
    · rw [if_pos hv] at h
      cases hmk : make_variable_token line with
      | none => rw [hmk] at h; cases h
      | some tok =>
        rw [hmk] at h
        obtain ⟨var, hvar⟩ := make_variable_token_shape line tok hmk
        have h2 := Option.some.inj h
        cases h2
        cases hvar
        exact ⟨rfl, Or.inr ⟨rfl, rfl⟩⟩
    · rw [if_neg hv] at h
      by_cases hc : is_comment line = true
      · rw [if_pos hc] at h
        unfold make_token_from_comment_line at h
        simp only [] at h
        obtain ⟨c, hcm⟩ := make_comment_token_shape line
        split at h
        · have h2 := Option.some.inj h
          cases h2
          refine ⟨rfl, Or.inr ⟨?_, rfl⟩⟩
          rw [hcm]
          rfl
        · have h2 := Option.some.inj h
          cases h2
          refine ⟨rfl, Or.inr ⟨?_, rfl⟩⟩
          rw [hcm]
          rfl
      · rw [if_neg hc] at h
        have := Option.some.inj h
        cases this
        exact ⟨rfl, Or.inr ⟨rfl, rfl⟩⟩

/-! Decimal formatting facts, for the fingerprint input injectivity. -/

/-- Value of a decimal digit string. -/
def dec_val (s : Str) : Nat := s.foldl (fun a c => a * 10 + (c.toNat - 48)) 0

theorem digit_char_toNat (d : Nat) (h : d < 10) :
    (digit_char d).toNat = 48 + d := by
  interval_cases d <;> rfl

theorem nat_digits_go_zero_n (fuel : Nat) (acc : Str) :
    nat_digits_go fuel 0 acc = acc := by
  cases fuel <;> rfl

theorem nat_digits_go_append (fuel : Nat) :
    ∀ n acc, nat_digits_go fuel n acc = nat_digits_go fuel n [] ++ acc := by
  induction fuel with
  | zero => intro n acc; rfl
  | succ fuel ih =>
    intro n acc
    match n with
    | 0 => rfl
    | m + 1 =>
      rw [nat_digits_go, nat_digits_go, ih ((m + 1) / 10),
        ih ((m + 1) / 10) [digit_char ((m + 1) % 10)], List.append_assoc]
      rfl

theorem dec_val_append_digit (s : Str) (c : Char) :
    dec_val (s ++ [c]) = dec_val s * 10 + (c.toNat - 48) := by
  simp [dec_val, List.foldl_append]

theorem dec_val_nat_digits_go (fuel : Nat) :
    ∀ n, 0 < n → n ≤ fuel → dec_val (nat_digits_go fuel n []) = n := by
  induction fuel with
  | zero => intro n h hle; omega
  | succ fuel ih =>
    intro n h hle
    match n with
    | 0 => cases h
    | m + 1 =>
      rw [nat_digits_go, nat_digits_go_append, dec_val_append_digit,
        digit_char_toNat _ (Nat.mod_lt _ (by omega))]
      by_cases hq : (m + 1) / 10 = 0
      · have hlt10 : m + 1 < 10 := by omega
        rw [hq, nat_digits_go_zero_n]
        have hmod : (m + 1) % 10 = m + 1 := Nat.mod_eq_of_lt hlt10
        simp [dec_val, hmod]
      · have hle2 : (m + 1) / 10 ≤ fuel := by
          have := Nat.div_lt_self (Nat.succ_pos m) (show 1 < 10 by omega)
          omega
        rw [ih _ (by omega) hle2]
        have := Nat.div_add_mod (m + 1) 10
        omega

theorem dec_val_nat_digits (n : Nat) : dec_val (nat_digits n) = n := by
  unfold nat_digits
  by_cases h : n = 0
  · rw [if_pos h, h]
    rfl
  · rw [if_neg h]
    exact dec_val_nat_digits_go n n (by omega) (by omega)

theorem nat_digits_go_digits (fuel : Nat) :
    ∀ n acc, (∀ c ∈ acc, 48 ≤ c.toNat ∧ c.toNat ≤ 57) →
    ∀ c ∈ nat_digits_go fuel n acc, 48 ≤ c.toNat ∧ c.toNat ≤ 57 := by
  induction fuel with
  | zero => intro n acc hacc; exact hacc
  | succ fuel ih =>
    intro n acc hacc
    match n with
    | 0 => exact hacc
    | m + 1 =>
      rw [nat_digits_go]
      refine ih _ _ ?_
      intro c hc
      rcases List.mem_cons.mp hc with hc | hc
      · subst hc
        rw [digit_char_toNat _ (Nat.mod_lt _ (by omega))]
        omega
      · exact hacc c hc

theorem nat_digits_digits (n : Nat) :
    ∀ c ∈ nat_digits n, 48 ≤ c.toNat ∧ c.toNat ≤ 57 := by
  unfold nat_digits
  by_cases h : n = 0
  · rw [if_pos h]
    intro c hc
    rcases List.mem_singleton.mp hc with rfl
    exact ⟨by decide, by decide⟩
  · rw [if_neg h]
    exact nat_digits_go_digits n n [] (by simp)

theorem nat_digits_no_rparen (n : Nat) : ∀ c ∈ nat_digits n, ¬c = ')' := by
  intro c hc hrp
  have := nat_digits_digits n c hc
  rw [hrp] at this
  revert this
  decide

theorem append_rparen_cancel :
    ∀ (d d2 x x2 : Str), (∀ c ∈ d, ¬c = ')') → (∀ c ∈ d2, ¬c = ')') →
    d ++ ')' :: x = d2 ++ ')' :: x2 → d = d2 ∧ x = x2 := by
  intro d
  induction d with
  | nil =>
    intro d2 x x2 _ h2 h
    cases d2 with
    | nil =>
      simp only [List.nil_append] at h
      exact ⟨rfl, (List.cons.inj h).2⟩
    | cons e d2 =>
      simp only [List.nil_append, List.cons_append] at h
      have he := (List.cons.inj h).1
      exact absurd he.symm (h2 e (List.mem_cons_self _ _))
  | cons a d ih =>
    intro d2 x x2 h1 h2 h
    cases d2 with
    | nil =>
      simp only [List.cons_append, List.nil_append] at h
      have ha := (List.cons.inj h).1
      exact absurd ha (h1 a (List.mem_cons_self _ _))
    | cons b d2 =>
      simp only [List.cons_append] at h
      have hab := (List.cons.inj h).1
      have htl := (List.cons.inj h).2
      obtain ⟨hd, hx⟩ := ih d2 x x2
        (fun c hc => h1 c (List.mem_cons_of_mem _ hc))
        (fun c hc => h2 c (List.mem_cons_of_mem _ hc)) htl
      exact ⟨by rw [hab, hd], hx⟩

theorem fingerprint_input_injective (uid : Nat) (command : Str) (uid2 : Nat)
    (command2 : Str)
    (h : fingerprint_input uid command = fingerprint_input uid2 command2) :
    uid = uid2 ∧ command = command2 := by
  unfold fingerprint_input at h
  rw [show str "uid(" = ['u', 'i', 'd', '('] from rfl,
    show str "),command(" = ')' :: str ",command(" from rfl,
    show str ")" = [')'] from rfl] at h
  simp only [List.cons_append, List.cons.injEq, true_and, List.nil_append] at h
  rw [List.append_assoc, List.append_assoc] at h
  obtain ⟨hd, hx⟩ := append_rparen_cancel (nat_digits uid) (nat_digits uid2)
    _ _ (nat_digits_no_rparen uid) (nat_digits_no_rparen uid2) (by
      simpa using h)
  constructor
  · have := congrArg dec_val hd
    rwa [dec_val_nat_digits, dec_val_nat_digits] at this
  · rw [show str ",command(" = [',', 'c', 'o', 'm', 'm', 'a', 'n', 'd', '('] from rfl]
      at hx
    simp only [List.cons_append, List.cons.injEq, true_and, List.nil_append] at hx
    have := congrArg List.reverse hx
    simp only [List.reverse_append, List.reverse_cons, List.reverse_nil,
      List.nil_append, List.cons_append, List.cons.injEq, true_and] at this
    have := congrArg List.reverse this
    simpa using this

theorem cron_job_uid_none_iff (t : Token) :
    cron_job_uid t = none ↔ is_cron_job_token t = false := by
  cases t <;> simp [cron_job_uid, is_cron_job_token]

theorem parse_lines_uid_invariant (lines : List Str) :
    ∀ (state st : ParserState), parse_lines lines state = some st →
    state.job_uid = state.tokens.countP is_cron_job_token + 1 →
    state.tokens.filterMap cron_job_uid
      = List.range' 1 (state.tokens.countP is_cron_job_token) →
    (∀ j : CronJob, Token.CronJob j ∈ state.tokens →
      j.fingerprint = fingerprint_of j.uid j.command) →
    st.tokens.filterMap cron_job_uid
        = List.range' 1 (st.tokens.countP is_cron_job_token)
      ∧ (∀ j : CronJob, Token.CronJob j ∈ st.tokens →
          j.fingerprint = fingerprint_of j.uid j.command) := by
  induction lines with
  | nil =>
    intro state st h h1 h2 h3
    cases Option.some.inj h
    exact ⟨h2, h3⟩
  | cons line rest ih =>
    intro state st h h1 h2 h3
    rw [parse_lines] at h
    by_cases he : (trim line).isEmpty = true
    · rw [if_pos he] at h
      exact ih state st h h1 h2 h3
    · rw [if_neg he] at h
      cases hm : make_token_from_line (trim line) state with
      | none => rw [hm] at h; cases h
      | some r =>
        obtain ⟨t, s2⟩ := r
        rw [hm] at h
        obtain ⟨htoks, hspec⟩ := make_token_from_line_spec (trim line) state s2 t hm
        rcases hspec with ⟨job, rfl, huid, hfp, huid2⟩ | ⟨hnone, huid2⟩
        · refine ih _ st h ?_ ?_ ?_
          · show s2.job_uid
              = List.countP is_cron_job_token (s2.tokens ++ [Token.CronJob job]) + 1
            rw [htoks, List.countP_append, huid2, h1]
            rfl
          · show List.filterMap cron_job_uid (s2.tokens ++ [Token.CronJob job])
              = List.range' 1
                  (List.countP is_cron_job_token (s2.tokens ++ [Token.CronJob job]))
            rw [htoks, List.filterMap_append, List.countP_append, h2]
            have hcount : List.countP is_cron_job_token [Token.CronJob job] = 1 := rfl
            rw [hcount, List.range'_concat]
            have : List.filterMap cron_job_uid [Token.CronJob job] = [job.uid] := rfl
            rw [this, huid, h1]
            have : 1 + 1 * List.countP is_cron_job_token state.tokens
                = List.countP is_cron_job_token state.tokens + 1 := by omega
            rw [this]
          · intro j hj
            show j.fingerprint = fingerprint_of j.uid j.command
            rw [htoks] at hj
            rcases List.mem_append.mp hj with hj | hj
            · exact h3 j hj
            · rcases List.mem_singleton.mp hj with hj
              cases Token.CronJob.inj hj
              exact hfp
        · refine ih _ st h ?_ ?_ ?_
          · show s2.job_uid = List.countP is_cron_job_token (s2.tokens ++ [t]) + 1
            rw [htoks, List.countP_append, huid2, h1]
            have hf : is_cron_job_token t = false := (cron_job_uid_none_iff t).mp hnone
            simp [hf]
          · show List.filterMap cron_job_uid (s2.tokens ++ [t])
              = List.range' 1 (List.countP is_cron_job_token (s2.tokens ++ [t]))
            have hf : is_cron_job_token t = false := (cron_job_uid_none_iff t).mp hnone
            rw [htoks, List.filterMap_append, List.countP_append]
            have h5 : List.filterMap cron_job_uid [t] = [] := by
              simp [List.filterMap, hnone]
            have h6 : List.countP is_cron_job_token [t] = 0 := by
              simp [List.countP, List.countP.go, hf]
            rw [h5, h6, List.append_nil, Nat.add_zero]
            exact h2
          · intro j hj
            show j.fingerprint = fingerprint_of j.uid j.command
            rw [htoks] at hj
            rcases List.mem_append.mp hj with hj | hj
            · exact h3 j hj
            · rcases List.mem_singleton.mp hj with hj
              rw [← hj] at hnone
              cases hnone

/-- C3: every `CronJob` token produced by `parse` carries
`fingerprint = fingerprint_of uid command`, i.e. the djb2 hash (64-bit
rolling hash, seed 5381, each byte `b` sending state `h` to
`h * 33 + b` modulo `2 ^ 64`) of the UTF-8 bytes of the string
`uid(<uid>),command(<command>)`; the fingerprint is therefore a pure
function of the pair (uid, command) — schedule, description and
section cannot affect it — and changing the uid or the command changes
the hash input, the input string determining the pair. -/
theorem C3_fingerprint_is_hash_of_uid_and_command :
    (∀ (crontab : Str) (tokens : List Token) (job : CronJob),
      parse crontab = some tokens → Token.CronJob job ∈ tokens →
      job.fingerprint = fingerprint_of job.uid job.command)
  ∧ (∀ (uid : Nat) (command : Str),
      fingerprint_of uid command
        = djb2 (utf8_encode (str "uid(" ++ nat_digits uid ++ str "),command("
            ++ command ++ str ")")))
  ∧ (∀ h b : Nat, djb2_step h b = (h * 33 + b) % 2 ^ 64)
  ∧ (∀ (uid : Nat) (command : Str) (uid2 : Nat) (command2 : Str),
      fingerprint_input uid command = fingerprint_input uid2 command2 →
      uid = uid2 ∧ command = command2) := by
  refine ⟨?_, fun uid command => rfl, ?_, fingerprint_input_injective⟩
  · intro crontab tokens job hp hmem
    unfold parse at hp
    cases hq : parse_lines (rust_lines crontab) ⟨[], 1, none⟩ with
    | none => rw [hq] at hp; cases hp
    | some st =>
      rw [hq] at hp
      have hst := Option.some.inj hp
      obtain ⟨-, hfps⟩ := parse_lines_uid_invariant (rust_lines crontab)
        ⟨[], 1, none⟩ st hq rfl rfl (by intro j hj; cases hj)
      exact hfps job (by rw [hst]; exact hmem)
  · intro h b
    rw [djb2_step, Nat.shiftLeft_eq, Nat.mod_add_mod, Nat.add_assoc,
      Nat.mod_add_mod, ← Nat.add_assoc]
    have : h * 2 ^ 5 + h + b = h * 33 + b := by ring
    rw [this]

/-- C4 (amended): in every successful parse the uids of the `CronJob`
tokens are exactly 1, 2, 3, … in parse order — as many as there are
non-ignored job tokens, starting at 1, strictly increasing and
contiguous — so an `IgnoredJob` token never advances the numbering. -/
theorem C4_uids_are_contiguous_from_one (crontab : Str) (tokens : List Token)
    (h : parse crontab = some tokens) :
    tokens.filterMap cron_job_uid
      = List.range' 1 (tokens.countP is_cron_job_token) := by
  unfold parse at h
  cases hq : parse_lines (rust_lines crontab) ⟨[], 1, none⟩ with
  | none => rw [hq] at h; cases h
  | some st =>
    rw [hq] at h
    have hst := Option.some.inj h
    obtain ⟨huids, -⟩ := parse_lines_uid_invariant (rust_lines crontab)
      ⟨[], 1, none⟩ st hq rfl rfl (by intro j hj; cases hj)
    rw [hst] at huids
    exact huids

/-- C4 witness: the spec's own example — the ignored job consumes no
uid, so the following job gets uid 1 and the assigned uids are exactly
`range' 1 1`. -/
theorem C4_uids_witness :
    List.filterMap cron_job_uid
      [Token.Variable ⟨str "FOO", str "bar"⟩,
       Token.Comment ⟨str "%\x7bignore\x7d", CommentKind.Description⟩,
       Token.IgnoredJob ⟨some (str "ignore"), str "@daily", str "true", none, none⟩,
       Token.CronJob ⟨1, fingerprint_of 1 (str "echo $FOO"), none,
         str "* * * * *", str "echo $FOO", none, none⟩]
    = List.range' 1 (List.countP is_cron_job_token
      [Token.Variable ⟨str "FOO", str "bar"⟩,
       Token.Comment ⟨str "%\x7bignore\x7d", CommentKind.Description⟩,
       Token.IgnoredJob ⟨some (str "ignore"), str "@daily", str "true", none, none⟩,
       Token.CronJob ⟨1, fingerprint_of 1 (str "echo $FOO"), none,
         str "* * * * *", str "echo $FOO", none, none⟩]) :=
  C4_uids_are_contiguous_from_one
    (str "FOO=bar\n## %\x7bignore\x7d\n@daily true\n* * * * * echo $FOO")
    [Token.Variable ⟨str "FOO", str "bar"⟩,
     Token.Comment ⟨str "%\x7bignore\x7d", CommentKind.Description⟩,
     Token.IgnoredJob ⟨some (str "ignore"), str "@daily", str "true", none, none⟩,
     Token.CronJob ⟨1, fingerprint_of 1 (str "echo $FOO"), none,
       str "* * * * *", str "echo $FOO", none, none⟩]
    (by decide)

/-- C4 counterexample: the claim also says the uids and fingerprints of
jobs that follow an ignored job are the same as if the ignored job's
line were absent.  Not so: in the first crontab the job `b` follows the
ignored job `a` and receives uid 1, but with the line `@daily a`
removed the `%\x7bignore\x7d` description comment immediately precedes
`@daily b`, so `b` itself becomes an `IgnoredJob` and receives no uid
at all (the parse holds no `CronJob` token). -/
theorem C4_counterexample_removing_ignored_line :
    parse (str "## %\x7bignore\x7d\n@daily a\n@daily b")
      = some [Token.Comment ⟨str "%\x7bignore\x7d", CommentKind.Description⟩,
          Token.IgnoredJob ⟨some (str "ignore"), str "@daily", str "a", none, none⟩,
          Token.CronJob ⟨1, fingerprint_of 1 (str "b"), none, str "@daily",
            str "b", none, none⟩]
  ∧ parse (str "## %\x7bignore\x7d\n@daily b")
      = some [Token.Comment ⟨str "%\x7bignore\x7d", CommentKind.Description⟩,
          Token.IgnoredJob ⟨some (str "ignore"), str "@daily", str "b", none, none⟩]
  ∧ (parse (str "## %\x7bignore\x7d\n@daily a\n@daily b")).map
      (fun tokens => tokens.filterMap cron_job_uid) = some [1]
  ∧ (parse (str "## %\x7bignore\x7d\n@daily b")).map
      (fun tokens => tokens.filterMap cron_job_uid) = some [] := by
  refine ⟨by decide, by decide, by decide, by decide⟩

/-! Claim C2: the token union and the emission of ignored jobs. -/

theorem parse_lines_tokens_prefix (lines : List Str) :
    ∀ (state st : ParserState), parse_lines lines state = some st →
    ∃ suffix, st.tokens = state.tokens ++ suffix := by
  induction lines with
  | nil =>
    intro state st h
    cases Option.some.inj h
    exact ⟨[], by simp⟩
  | cons line rest ih =>
    intro state st h
    rw [parse_lines] at h
    by_cases he : (trim line).isEmpty = true
    · rw [if_pos he] at h
      exact ih state st h
    · rw [if_neg he] at h
      cases hm : make_token_from_line (trim line) state with
      | none => rw [hm] at h; cases h
      | some r =>
        obtain ⟨t, s2⟩ := r
        rw [hm] at h
        obtain ⟨htoks, -⟩ := make_token_from_line_spec (trim line) state s2 t hm
        obtain ⟨suffix, hsuf⟩ := ih _ st h
        refine ⟨t :: suffix, ?_⟩
        rw [hsuf]
        show s2.tokens ++ [t] ++ suffix = state.tokens ++ t :: suffix
        rw [htoks, List.append_assoc]
        rfl

/-- C2: the token type produced by `parse` is a tagged union over
`CronJob`, `IgnoredJob`, `Variable`, `Comment` and `Unknown` (first
conjunct: every token is one of the five variants); every job line
whose derived tag equals the literal string `ignore` is emitted as an
`IgnoredJob` token, with the parser state untouched (second conjunct,
so the token is pushed at the job's position in the output); and the
parse loop only ever appends, so a token once emitted stays at its
position in the final sequence (third conjunct). -/
theorem C2_token_union_and_ignored_job_emission :
    (∀ t : Token,
      (∃ j, t = Token.CronJob j) ∨ (∃ j, t = Token.IgnoredJob j)
        ∨ (∃ v, t = Token.Variable v) ∨ (∃ c, t = Token.Comment c)
        ∨ (∃ u, t = Token.Unknown u))
  ∧ (∀ (line : Str) (state : ParserState) (schedule command : Str),
      is_job line = true →
      split_schedule_and_command line = some (schedule, command) →
      schedule ≠ [] → command ≠ [] →
      (extract_tag_from_job_description
        (get_job_description_if_any state.tokens.getLast?)).2 = some (str "ignore") →
      make_token_from_line line state
        = some (Token.IgnoredJob ⟨some (str "ignore"), schedule, command,
            (extract_tag_from_job_description
              (get_job_description_if_any state.tokens.getLast?)).1,
            state.job_section⟩, state))
  ∧ (∀ (lines : List Str) (state st : ParserState),
      parse_lines lines state = some st →
      ∃ suffix, st.tokens = state.tokens ++ suffix) := by
  refine ⟨?_, ?_, parse_lines_tokens_prefix⟩
  · intro t
    cases t with
    | CronJob j => exact Or.inl ⟨j, rfl⟩
    | IgnoredJob j => exact Or.inr (Or.inl ⟨j, rfl⟩)
    | Variable v => exact Or.inr (Or.inr (Or.inl ⟨v, rfl⟩))
    | Comment c => exact Or.inr (Or.inr (Or.inr (Or.inl ⟨c, rfl⟩)))
    | Unknown u => exact Or.inr (Or.inr (Or.inr (Or.inr ⟨u, rfl⟩)))
  · intro line state schedule command hj hsplit hs hc htag
    unfold make_token_from_line
    rw [if_pos hj]
    unfold make_token_from_job_line
    have hjob : make_job_token line state
        = some (Except.ok (Token.IgnoredJob ⟨some (str "ignore"), schedule, command,
            (extract_tag_from_job_description
              (get_job_description_if_any state.tokens.getLast?)).1,
            state.job_section⟩)) := by
      unfold make_job_token
      rw [hsplit]
      have hemp : (schedule.isEmpty || command.isEmpty) = false := by
        simp [List.isEmpty_iff, hs, hc]
      simp only [hemp, Bool.false_eq_true, if_false]
      rcases hE : extract_tag_from_job_description
          (get_job_description_if_any state.tokens.getLast?) with ⟨d, tg⟩
      rw [hE] at htag
      simp only [] at htag
      subst htag
      have hign : is_job_ignored (some (str "ignore")) = true := by
        simp [is_job_ignored]
      simp only [hign, if_true]
    rw [hjob]

/-! Claim C7: descriptions and tags come from the immediately
preceding token. -/

/-- The token immediately preceding position `i`, `none` at the front. -/
def prev_at (tokens : List Token) : Nat → Option Token
  | 0 => none
  | k + 1 => tokens[k]?

/-- Spec: the tag and description a job derives from the token
immediately preceding it.  Only a `Comment` of kind `Description` with
non-empty text counts; text opening with the two characters
percent-brace and holding a closing brace yields the tag between the
braces, and the description becomes the text after the first closing
brace, trimmed, or nothing when that is empty. -/
def spec_tag_and_description (previous : Option Token) :
    Option Str × Option JobDescription :=
  match previous with
  | some (Token.Comment ⟨text, CommentKind.Description⟩) =>
    if text = [] then (none, none)
    else if text.take 2 = ['%', lbrace] && text.contains rbrace then
      match split_once_char rbrace text with
      | some (before, after) =>
        let description := trim_start after
        (some (before.drop 2),
          if description = [] then none else some ⟨description⟩)
      | none => (none, some ⟨text⟩)
    else (none, some ⟨text⟩)
  | _ => (none, none)

theorem tag_desc_bridge (previous : Option Token) :
    ((extract_tag_from_job_description (get_job_description_if_any previous)).2,
      (extract_tag_from_job_description (get_job_description_if_any previous)).1)
      = spec_tag_and_description previous := by
  match previous with
  | none => rfl
  | some (Token.CronJob j) => rfl
  | some (Token.IgnoredJob j) => rfl
  | some (Token.Variable v) => rfl
  | some (Token.Unknown u) => rfl
  | some (Token.Comment ⟨text, CommentKind.Regular⟩) => rfl
  | some (Token.Comment ⟨text, CommentKind.Section⟩) => rfl
  | some (Token.Comment ⟨text, CommentKind.Description⟩) =>
    simp only [get_job_description_if_any, spec_tag_and_description]
    by_cases ht : text = []
    · have hemp : text.isEmpty = true := by simp [List.isEmpty_iff, ht]
      simp [hemp, ht, extract_tag_from_job_description]
    · have hemp : text.isEmpty = false := by simp [List.isEmpty_iff, ht]
      simp only [hemp, Bool.false_eq_true, if_false, if_neg ht,
        extract_tag_from_job_description]
      by_cases hcond : (text.take 2 = ['%', lbrace] && text.contains rbrace) = true
      · simp only [hcond, if_true]
        cases hsp : split_once_char rbrace text with
        | none => rfl
        | some p =>
          obtain ⟨before, after⟩ := p
          simp only []
          by_cases hd : trim_start after = []
          · have : (trim_start after).isEmpty = true := by
              simp [List.isEmpty_iff, hd]
            simp [this, hd]
          · have : (trim_start after).isEmpty = false := by
              simp [List.isEmpty_iff, hd]
            simp [this, hd]
      · rw [if_neg hcond, if_neg hcond]

theorem make_job_token_tag_desc (line : Str) (state : ParserState)
    (r : Token) (h : make_job_token line state = some (Except.ok r)) :
    (∀ job : CronJob, r = Token.CronJob job →
      (job.tag, job.description)
        = spec_tag_and_description state.tokens.getLast?)
  ∧ (∀ job : IgnoredJob, r = Token.IgnoredJob job →
      (job.tag, job.description)
        = spec_tag_and_description state.tokens.getLast?) := by
  unfold make_job_token at h
  split at h
  · cases h
  · split at h
    · cases h
    · simp only [] at h
      split at h
      · have h1 := Except.ok.inj (Option.some.inj h)
        subst h1
        constructor
        · intro job hj2; cases hj2
        · intro job hj2
          cases Token.IgnoredJob.inj hj2
          exact tag_desc_bridge _
      · have h1 := Except.ok.inj (Option.some.inj h)
        subst h1
        constructor
        · intro job hj2
          cases Token.CronJob.inj hj2
          exact tag_desc_bridge _
        · intro job hj2; cases hj2

theorem make_token_from_line_tag_desc (line : Str) (state s2 : ParserState)
    (t : Token) (h : make_token_from_line line state = some (t, s2)) :
    (∀ job : CronJob, t = Token.CronJob job →
      (job.tag, job.description) = spec_tag_and_description state.tokens.getLast?)
  ∧ (∀ job : IgnoredJob, t = Token.IgnoredJob job →
      (job.tag, job.description)
        = spec_tag_and_description state.tokens.getLast?) := by
  unfold make_token_from_line at h
  by_cases hj : is_job line = true
  · rw [if_pos hj] at h
    unfold make_token_from_job_line at h
    cases hm : make_job_token line state with
    | none => rw [hm] at h; cases h
    | some r =>
      rw [hm] at h
      cases r with
      | error e =>
        have h2 := Option.some.inj h
        cases h2
        constructor
        · intro job hj2; cases hj2
        · intro job hj2; cases hj2
      | ok token =>
        have hbase := make_job_token_tag_desc line state token hm
        cases token with
        | CronJob job0 =>
          have h2 := Option.some.inj h
          cases h2
          exact hbase
        | IgnoredJob job0 =>
          have h2 := Option.some.inj h
          cases h2
          exact hbase
        | Variable v =>
          have h2 := Option.some.inj h
          cases h2
          constructor
          · intro job hj2; cases hj2
          · intro job hj2; cases hj2
        | Comment c =>
          have h2 := Option.some.inj h
          cases h2
          constructor
          · intro job hj2; cases hj2
          · intro job hj2; cases hj2
        | Unknown u =>
          have h2 := Option.some.inj h
          cases h2
          constructor
          · intro job hj2; cases hj2
          · intro job hj2; cases hj2
  · rw [if_neg hj] at h
    by_cases hv : is_variable line = true
    · rw [if_pos hv] at h
      cases hmk : make_variable_token line with
      | none => rw [hmk] at h; cases h
      | some tok =>
        rw [hmk] at h
        obtain ⟨var, hvar⟩ := make_variable_token_shape line tok hmk
        have h2 := Option.some.inj h
        cases h2
        cases hvar
        constructor
        · intro job hj2; cases hj2
        · intro job hj2; cases hj2
    · rw [if_neg hv] at h
      by_cases hc : is_comment line = true
      · rw [if_pos hc] at h
        unfold make_token_from_comment_line at h
        simp only [] at h
        obtain ⟨c, hcm⟩ := make_comment_token_shape line
        split at h
        · have h2 := Option.some.inj h
          cases h2
          rw [hcm]
          constructor
          · intro job hj2; cases hj2
          · intro job hj2; cases hj2
        · have h2 := Option.some.inj h
          cases h2
          rw [hcm]
          constructor
          · intro job hj2; cases hj2
          · intro job hj2; cases hj2
      · rw [if_neg hc] at h
        have h2 := Option.some.inj h
        cases h2
        constructor
        · intro job hj2; cases hj2
        · intro job hj2; cases hj2

theorem prev_at_append_lt (l : List Token) (t : Token) (i : Nat)
    (h : i < l.length) : prev_at (l ++ [t]) i = prev_at l i := by
  cases i with
  | zero => rfl
  | succ k =>
    show (l ++ [t])[k]? = l[k]?
    rw [List.getElem?_append]
    rw [if_pos (by omega)]

theorem prev_at_append_self (l : List Token) (t : Token) :
    prev_at (l ++ [t]) l.length = l.getLast? := by
  cases hl : l.length with
  | zero =>
    have : l = [] := List.length_eq_zero.mp hl
    subst this
    rfl
  | succ m =>
    show (l ++ [t])[m]? = l.getLast?
    rw [List.getElem?_append, if_pos (by omega), List.getLast?_eq_getElem?, hl]
    simp

theorem parse_lines_desc_invariant (lines : List Str) :
    ∀ (state st : ParserState), parse_lines lines state = some st →
    ((∀ (i : Nat) (job : CronJob), state.tokens[i]? = some (Token.CronJob job) →
        (job.tag, job.description)
          = spec_tag_and_description (prev_at state.tokens i))
      ∧ (∀ (i : Nat) (job : IgnoredJob),
          state.tokens[i]? = some (Token.IgnoredJob job) →
        (job.tag, job.description)
          = spec_tag_and_description (prev_at state.tokens i))) →
    ((∀ (i : Nat) (job : CronJob), st.tokens[i]? = some (Token.CronJob job) →
        (job.tag, job.description) = spec_tag_and_description (prev_at st.tokens i))
      ∧ (∀ (i : Nat) (job : IgnoredJob),
          st.tokens[i]? = some (Token.IgnoredJob job) →
        (job.tag, job.description)
          = spec_tag_and_description (prev_at st.tokens i))) := by
  induction lines with
  | nil =>
    intro state st h hinv
    cases Option.some.inj h
    exact hinv
  | cons line rest ih =>
    intro state st h hinv
    rw [parse_lines] at h
    by_cases he : (trim line).isEmpty = true
    · rw [if_pos he] at h
      exact ih state st h hinv
    · rw [if_neg he] at h
      cases hm : make_token_from_line (trim line) state with
      | none => rw [hm] at h; cases h
      | some r =>
        obtain ⟨t, s2⟩ := r
        rw [hm] at h
        obtain ⟨htoks, -⟩ := make_token_from_line_spec (trim line) state s2 t hm
        obtain ⟨hcron, hign⟩ := make_token_from_line_tag_desc (trim line) state s2 t hm
        have h2 : parse_lines rest
            ⟨state.tokens ++ [t], s2.job_uid, s2.job_section⟩ = some st := by
          rw [← htoks]
          exact h
        refine ih _ st h2 ⟨?_, ?_⟩
        · intro i job hij
          have hij2 : (state.tokens ++ [t])[i]? = some (Token.CronJob job) := hij
          show (job.tag, job.description)
            = spec_tag_and_description (prev_at (state.tokens ++ [t]) i)
          have hi : i < state.tokens.length + 1 := by
            have := List.getElem?_eq_some.mp hij2
            obtain ⟨hlt, -⟩ := this
            simpa using hlt
          by_cases hilt : i < state.tokens.length
          · rw [List.getElem?_append, if_pos hilt] at hij2
            rw [prev_at_append_lt _ _ _ hilt]
            exact hinv.1 i job hij2
          · have hieq : i = state.tokens.length := by omega
            subst hieq
            rw [List.getElem?_concat_length] at hij2
            have ht2 : t = Token.CronJob job := Option.some.inj hij2
            rw [prev_at_append_self]
            exact hcron job ht2
        · intro i job hij
          have hij2 : (state.tokens ++ [t])[i]? = some (Token.IgnoredJob job) := hij
          show (job.tag, job.description)
            = spec_tag_and_description (prev_at (state.tokens ++ [t]) i)
          have hi : i < state.tokens.length + 1 := by
            have := List.getElem?_eq_some.mp hij2
            obtain ⟨hlt, -⟩ := this
            simpa using hlt
          by_cases hilt : i < state.tokens.length
          · rw [List.getElem?_append, if_pos hilt] at hij2
            rw [prev_at_append_lt _ _ _ hilt]
            exact hinv.2 i job hij2
          · have hieq : i = state.tokens.length := by omega
            subst hieq
            rw [List.getElem?_concat_length] at hij2
            have ht2 : t = Token.IgnoredJob job := Option.some.inj hij2
            rw [prev_at_append_self]
            exact hign job ht2

/-- C7 (amended): in every successful parse, a job token's tag and
description are derived exactly from the token immediately preceding
it in the token sequence — only a non-empty `Description` comment
contributes, and a tag `%\x7bt\x7d` at its start yields `tag = t` with
the description becoming the text after the closing brace, trimmed, or
nothing when empty.  Blank lines produce no token at all, so they do
not break this adjacency (which is where the original claim fails, see
the counterexample). -/
theorem C7_description_from_immediately_preceding_token (crontab : Str)
    (tokens : List Token) (h : parse crontab = some tokens) :
    (∀ (i : Nat) (job : CronJob), tokens[i]? = some (Token.CronJob job) →
      (job.tag, job.description) = spec_tag_and_description (prev_at tokens i))
  ∧ (∀ (i : Nat) (job : IgnoredJob), tokens[i]? = some (Token.IgnoredJob job) →
      (job.tag, job.description) = spec_tag_and_description (prev_at tokens i)) := by
  unfold parse at h
  cases hq : parse_lines (rust_lines crontab) ⟨[], 1, none⟩ with
  | none => rw [hq] at h; cases h
  | some st =>
    rw [hq] at h
    have hst := Option.some.inj h
    have hres := parse_lines_desc_invariant (rust_lines crontab) ⟨[], 1, none⟩ st hq
      ⟨by intro i job hij; simp at hij, by intro i job hij; simp at hij⟩
    rw [hst] at hres
    exact hres

/-- C7 counterexample: a blank line stands between the description
comment and the job line, yet the description still attaches to the
job — blank lines are dropped before tokenization, so, against the
claim's words, an intervening blank line does not prevent the
description from attaching. -/
theorem C7_counterexample_blank_line_between :
    parse (str "## hello\n\n@daily x")
      = some [Token.Comment ⟨str "hello", CommentKind.Description⟩,
          Token.CronJob ⟨1, fingerprint_of 1 (str "x"), none, str "@daily",
            str "x", some ⟨str "hello"⟩, none⟩] := by decide

/-- C7 witness: the spec's tag example — a description comment reading
`%\x7btag\x7d hello` right before a job gives it tag `tag` and
description `hello`. -/
theorem C7_description_witness :
    (some (str "tag"), some (JobDescription.mk (str "hello")))
      = spec_tag_and_description (prev_at
          [Token.Comment ⟨str "%\x7btag\x7d hello", CommentKind.Description⟩,
           Token.CronJob ⟨1, fingerprint_of 1 (str "run"), some (str "tag"),
             str "@daily", str "run", some ⟨str "hello"⟩, none⟩] 1) :=
  (C7_description_from_immediately_preceding_token
    (str "## %\x7btag\x7d hello\n@daily run")
    [Token.Comment ⟨str "%\x7btag\x7d hello", CommentKind.Description⟩,
     Token.CronJob ⟨1, fingerprint_of 1 (str "run"), some (str "tag"),
       str "@daily", str "run", some ⟨str "hello"⟩, none⟩]
    (by decide)).1 1
    ⟨1, fingerprint_of 1 (str "run"), some (str "tag"), str "@daily", str "run",
      some ⟨str "hello"⟩, none⟩ (by decide)

/-! Claim C6: the positional schedule/command split. -/

theorem length_dropWhile_le (p : Char → Bool) (l : Str) :
    (l.dropWhile p).length ≤ l.length := by
  induction l with
  | nil => simp [List.dropWhile]
  | cons a l ih =>
    rw [List.dropWhile_cons]
    split
    · simp only [List.length_cons]
      omega
    · simp

/-- Spec: the whitespace-delimited elements of a line (ASCII whitespace
separates, as in the schedule loop). -/
def ascii_words : Str → List Str
  | [] => []
  | c :: rest =>
    if is_ascii_whitespace c then ascii_words rest
    else (c :: rest.takeWhile (fun x => !is_ascii_whitespace x))
        :: ascii_words (rest.dropWhile (fun x => !is_ascii_whitespace x))
termination_by s => s.length
decreasing_by
  · simp only [List.length_cons]
    omega
  · have := length_dropWhile_le (fun x => !is_ascii_whitespace x) rest
    simp only [List.length_cons]
    omega

/-- Helper for `join_elements`: elements each preceded by one space. -/
def sep_join : List Str → Str
  | [] => []
  | w :: ws => (' ' :: w) ++ sep_join ws

/-- Spec: elements joined by single spaces. -/
def join_elements : List Str → Str
  | [] => []
  | w :: ws => w ++ sep_join ws

/-- Spec: the suffix of the line right after its first `n`
whitespace-delimited elements. -/
def after_elements : Nat → Str → Str
  | 0, s => s
  | n + 1, s =>
    after_elements n ((s.dropWhile is_ascii_whitespace).dropWhile
      (fun c => !is_ascii_whitespace c))

/-- Continuation of the source schedule loop: the characters still to
be appended to the schedule, `left` elements remaining, `inWord`
telling whether the previous character was not whitespace. -/
def sched_finish : Str → Nat → Bool → Str
  | [], _, _ => []
  | c :: rest, left, inWord =>
    if is_ascii_whitespace c then
      if inWord then
        (if left ≤ 1 then [] else ' ' :: sched_finish rest (left - 1) false)
      else sched_finish rest left false
    else c :: sched_finish rest left true

/-- Continuation of the source schedule loop: the characters left on
the iterator when the loop returns. -/
def rem_finish : Str → Nat → Bool → Str
  | [], _, _ => []
  | c :: rest, left, inWord =>
    if is_ascii_whitespace c then
      if inWord then
        (if left ≤ 1 then rest else rem_finish rest (left - 1) false)
      else rem_finish rest left false
    else rem_finish rest left true

theorem sched_finish_cons_ws_out (c : Char) (rest : Str) (left : Nat)
    (hc : is_ascii_whitespace c = true) :
    sched_finish (c :: rest) left false = sched_finish rest left false := by
  rw [sched_finish, if_pos hc]
  rfl

theorem sched_finish_cons_ws_in_done (c : Char) (rest : Str) (left : Nat)
    (hc : is_ascii_whitespace c = true) (hl : left ≤ 1) :
    sched_finish (c :: rest) left true = [] := by
  rw [sched_finish, if_pos hc]
  simp [hl]

theorem sched_finish_cons_ws_in_more (c : Char) (rest : Str) (left : Nat)
    (hc : is_ascii_whitespace c = true) (hl : ¬left ≤ 1) :
    sched_finish (c :: rest) left true
      = ' ' :: sched_finish rest (left - 1) false := by
  rw [sched_finish, if_pos hc]
  simp [hl]

theorem sched_finish_cons_nonws (c : Char) (rest : Str) (left : Nat)
    (inWord : Bool) (hc : is_ascii_whitespace c = false) :
    sched_finish (c :: rest) left inWord = c :: sched_finish rest left true := by
  rw [sched_finish, if_neg (by simp [hc])]

theorem rem_finish_cons_ws_out (c : Char) (rest : Str) (left : Nat)
    (hc : is_ascii_whitespace c = true) :
    rem_finish (c :: rest) left false = rem_finish rest left false := by
  rw [rem_finish, if_pos hc]
  rfl

theorem rem_finish_cons_ws_in_done (c : Char) (rest : Str) (left : Nat)
    (hc : is_ascii_whitespace c = true) (hl : left ≤ 1) :
    rem_finish (c :: rest) left true = rest := by
  rw [rem_finish, if_pos hc]
  simp [hl]

theorem rem_finish_cons_ws_in_more (c : Char) (rest : Str) (left : Nat)
    (hc : is_ascii_whitespace c = true) (hl : ¬left ≤ 1) :
    rem_finish (c :: rest) left true = rem_finish rest (left - 1) false := by
  rw [rem_finish, if_pos hc]
  simp [hl]

theorem rem_finish_cons_nonws (c : Char) (rest : Str) (left : Nat)
    (inWord : Bool) (hc : is_ascii_whitespace c = false) :
    rem_finish (c :: rest) left inWord = rem_finish rest left true := by
  rw [rem_finish, if_neg (by simp [hc])]

theorem extract_schedule_loop_eq (rest : Str) :
    ∀ (schedule : Str) (target nb : Nat) (prev : Char), nb < target →
    extract_schedule_loop rest schedule target nb prev
      = (schedule ++ sched_finish rest (target - nb) (!is_ascii_whitespace prev),
          rem_finish rest (target - nb) (!is_ascii_whitespace prev)) := by
  induction rest with
  | nil =>
    intro schedule target nb prev h
    simp [extract_schedule_loop, sched_finish, rem_finish]
  | cons c rest ih =>
    intro schedule target nb prev h
    rw [extract_schedule_loop]
    by_cases hc : is_ascii_whitespace c = true
    · rw [if_pos hc]
      by_cases hp : is_ascii_whitespace prev = true
      · rw [if_pos hp, ih _ _ _ _ h]
        simp only [hp, hc, Bool.not_true]
        rw [sched_finish_cons_ws_out _ _ _ hc, rem_finish_cons_ws_out _ _ _ hc]
      · rw [if_neg hp]
        have hpf : is_ascii_whitespace prev = false := by
          revert hp
          cases is_ascii_whitespace prev <;> simp
        simp only [hpf, Bool.not_false]
        by_cases heq : nb + 1 = target
        · rw [if_pos heq]
          have hone : target - nb = 1 := by omega
          rw [hone, sched_finish_cons_ws_in_done _ _ _ hc (by omega),
            rem_finish_cons_ws_in_done _ _ _ hc (by omega), List.append_nil]
        · rw [if_neg heq, ih _ _ _ _ (show nb + 1 < target by omega)]
          simp only [hc, Bool.not_true]
          rw [sched_finish_cons_ws_in_more _ _ _ hc (by omega),
            rem_finish_cons_ws_in_more _ _ _ hc (by omega)]
          have hsub : target - (nb + 1) = target - nb - 1 := by omega
          rw [hsub, List.append_assoc]
          rfl
    · have hcf : is_ascii_whitespace c = false := by
        revert hc
        cases is_ascii_whitespace c <;> simp
      rw [if_neg hc, ih _ _ _ _ h]
      simp only [hcf, Bool.not_false]
      rw [sched_finish_cons_nonws _ _ _ _ hcf, rem_finish_cons_nonws _ _ _ _ hcf,
        List.append_assoc]
      rfl

/-- Whether the last character of a line is not ASCII whitespace (true
for the empty line); `parse` hands trimmed lines to the splitter, and
those satisfy it. -/
def last_non_ws (s : Str) : Bool :=
  match s.getLast? with
  | some c => !is_ascii_whitespace c
  | none => true

theorem last_non_ws_singleton (c : Char) :
    last_non_ws [c] = !is_ascii_whitespace c := rfl

theorem last_non_ws_cons (c : Char) (rest : Str)
    (h : last_non_ws (c :: rest) = true) (hne : rest ≠ []) :
    last_non_ws rest = true := by
  cases rest with
  | nil => cases hne rfl
  | cons d rest2 =>
    unfold last_non_ws at h ⊢
    rw [List.getLast?_cons_cons] at h
    exact h

theorem ascii_words_ne_nil (s : Str) :
    s ≠ [] → last_non_ws s = true → ascii_words s ≠ [] := by
  induction s with
  | nil => intro hne _; cases hne rfl
  | cons c rest ih =>
    intro _ hl
    by_cases hc : is_ascii_whitespace c = true
    · have hrne : rest ≠ [] := by
        intro hr
        subst hr
        rw [last_non_ws_singleton, hc] at hl
        cases hl
      have hl2 := last_non_ws_cons c rest hl hrne
      rw [show ascii_words (c :: rest) = ascii_words rest by
        simp [ascii_words, hc]]
      exact ih hrne hl2
    · rw [show ascii_words (c :: rest)
          = (c :: rest.takeWhile (fun x => !is_ascii_whitespace x))
            :: ascii_words (rest.dropWhile (fun x => !is_ascii_whitespace x)) by
        simp [ascii_words, hc]]
      simp

theorem sf_words (n : Nat) :
    ∀ s : Str, s.length ≤ n →
    (∀ left, 1 ≤ left → last_non_ws s = true →
      sched_finish s left true
        = s.takeWhile (fun x => !is_ascii_whitespace x)
          ++ sep_join ((ascii_words (s.dropWhile
              (fun x => !is_ascii_whitespace x))).take (left - 1)))
    ∧ (∀ left, 1 ≤ left → last_non_ws s = true →
      sched_finish s left false = join_elements ((ascii_words s).take left)) := by
  induction n with
  | zero =>
    intro s hs
    have hnil : s = [] := List.length_eq_zero.mp (by omega)
    subst hnil
    constructor
    · intro left h1 _
      simp [sched_finish, ascii_words, sep_join]
    · intro left h1 _
      simp [sched_finish, ascii_words, join_elements]
  | succ n ih =>
    intro s hs
    cases s with
    | nil =>
      constructor
      · intro left h1 _
        simp [sched_finish, ascii_words, sep_join]
      · intro left h1 _
        simp [sched_finish, ascii_words, join_elements]
    | cons c rest =>
      have hrest : rest.length ≤ n := by
        simp only [List.length_cons] at hs
        omega
      constructor
      · intro left h1 hlast
        by_cases hc : is_ascii_whitespace c = true
        · have hrne : rest ≠ [] := by
            intro hr
            subst hr
            rw [last_non_ws_singleton, hc] at hlast
            cases hlast
          have hlast2 : last_non_ws rest = true :=
            last_non_ws_cons c rest hlast hrne
          have htw : (c :: rest).takeWhile (fun x => !is_ascii_whitespace x)
              = [] := by
            rw [List.takeWhile_cons]
            simp [hc]
          have hdw : (c :: rest).dropWhile (fun x => !is_ascii_whitespace x)
              = c :: rest := by
            rw [List.dropWhile_cons]
            simp [hc]
          rw [htw, hdw, List.nil_append,
            show ascii_words (c :: rest) = ascii_words rest by
              simp [ascii_words, hc]]
          by_cases hl : left ≤ 1
          · rw [sched_finish_cons_ws_in_done _ _ _ hc hl]
            have : left - 1 = 0 := by omega
            rw [this]
            simp [sep_join]
          · rw [sched_finish_cons_ws_in_more _ _ _ hc hl,
              (ih rest hrest).2 (left - 1) (by omega) hlast2]
            have hwne : ascii_words rest ≠ [] := ascii_words_ne_nil rest hrne hlast2
            cases hw : ascii_words rest with
            | nil => cases hwne hw
            | cons w ws =>
              have hk : left - 1 = (left - 2) + 1 := by omega
              rw [hk, List.take_succ_cons]
              rfl
        · have hcf : is_ascii_whitespace c = false := by
            revert hc
            cases is_ascii_whitespace c <;> simp
          rw [sched_finish_cons_nonws _ _ _ _ hcf]
          have htw : (c :: rest).takeWhile (fun x => !is_ascii_whitespace x)
              = c :: rest.takeWhile (fun x => !is_ascii_whitespace x) := by
            rw [List.takeWhile_cons]
            simp [hcf]
          have hdw : (c :: rest).dropWhile (fun x => !is_ascii_whitespace x)
              = rest.dropWhile (fun x => !is_ascii_whitespace x) := by
            rw [List.dropWhile_cons]
            simp [hcf]
          rw [htw, hdw, List.cons_append]
          by_cases hrne : rest = []
          · subst hrne
            simp [sched_finish, ascii_words, sep_join]
          · have hlast2 : last_non_ws rest = true :=
              last_non_ws_cons c rest hlast hrne
            rw [(ih rest hrest).1 left h1 hlast2]
      · intro left h1 hlast
        by_cases hc : is_ascii_whitespace c = true
        · have hrne : rest ≠ [] := by
            intro hr
            subst hr
            rw [last_non_ws_singleton, hc] at hlast
            cases hlast
          have hlast2 := last_non_ws_cons c rest hlast hrne
          rw [sched_finish_cons_ws_out _ _ _ hc,
            show ascii_words (c :: rest) = ascii_words rest by
              simp [ascii_words, hc],
            (ih rest hrest).2 left h1 hlast2]
        · have hcf : is_ascii_whitespace c = false := by
            revert hc
            cases is_ascii_whitespace c <;> simp
          rw [sched_finish_cons_nonws _ _ _ _ hcf,
            show ascii_words (c :: rest)
                = (c :: rest.takeWhile (fun x => !is_ascii_whitespace x))
                  :: ascii_words (rest.dropWhile (fun x => !is_ascii_whitespace x)) by
              simp [ascii_words, hcf]]
          obtain ⟨k, rfl⟩ : ∃ k, left = k + 1 := ⟨left - 1, by omega⟩
          rw [List.take_succ_cons,
            show join_elements ((c :: rest.takeWhile (fun x => !is_ascii_whitespace x))
                :: (ascii_words (rest.dropWhile
                  (fun x => !is_ascii_whitespace x))).take k)
              = (c :: rest.takeWhile (fun x => !is_ascii_whitespace x))
                ++ sep_join ((ascii_words (rest.dropWhile
                  (fun x => !is_ascii_whitespace x))).take k) from rfl,
            List.cons_append]
          by_cases hrne : rest = []
          · subst hrne
            simp [sched_finish, ascii_words, sep_join]
          · have hlast2 := last_non_ws_cons c rest hlast hrne
            have hres := (ih rest hrest).1 (k + 1) (by omega) hlast2
            simp only [Nat.add_sub_cancel] at hres
            rw [hres]

theorem ascii_ws_unicode (c : Char) (h : is_ascii_whitespace c = true) :
    is_unicode_whitespace c = true := by
  unfold is_ascii_whitespace at h
  simp only [Bool.or_eq_true, decide_eq_true_eq] at h
  rcases h with ((((h | h) | h) | h) | h) <;> subst h <;> decide

theorem trim_cons_ws (c : Char) (s : Str) (h : is_ascii_whitespace c = true) :
    trim (c :: s) = trim s := by
  unfold trim trim_start
  rw [List.dropWhile_cons, if_pos (ascii_ws_unicode c h)]

theorem after_elements_nil (n : Nat) : after_elements n [] = [] := by
  induction n with
  | zero => rfl
  | succ n ih =>
    rw [after_elements]
    exact ih

theorem after_elements_cons_ws (m : Nat) (c : Char) (rest : Str)
    (hm : 1 ≤ m) (hc : is_ascii_whitespace c = true) :
    after_elements m (c :: rest) = after_elements m rest := by
  obtain ⟨k, rfl⟩ : ∃ k, m = k + 1 := ⟨m - 1, by omega⟩
  rw [after_elements, after_elements, List.dropWhile_cons, if_pos hc]

theorem rm_after (n : Nat) :
    ∀ s : Str, s.length ≤ n →
    (∀ left, 1 ≤ left →
      trim (rem_finish s left true)
        = trim (after_elements (left - 1)
            (s.dropWhile (fun x => !is_ascii_whitespace x))))
    ∧ (∀ left, 1 ≤ left →
      trim (rem_finish s left false) = trim (after_elements left s)) := by
  induction n with
  | zero =>
    intro s hs
    have hnil : s = [] := List.length_eq_zero.mp (by omega)
    subst hnil
    constructor
    · intro left h1
      simp [rem_finish, after_elements_nil]
    · intro left h1
      simp [rem_finish, after_elements_nil]
  | succ n ih =>
    intro s hs
    cases s with
    | nil =>
      constructor
      · intro left h1
        simp [rem_finish, after_elements_nil]
      · intro left h1
        simp [rem_finish, after_elements_nil]
    | cons c rest =>
      have hrest : rest.length ≤ n := by
        simp only [List.length_cons] at hs
        omega
      constructor
      · intro left h1
        by_cases hc : is_ascii_whitespace c = true
        · have hdw : (c :: rest).dropWhile (fun x => !is_ascii_whitespace x)
              = c :: rest := by
            rw [List.dropWhile_cons]
            simp [hc]
          rw [hdw]
          by_cases hl : left ≤ 1
          · rw [rem_finish_cons_ws_in_done _ _ _ hc hl]
            have h0 : left - 1 = 0 := by omega
            rw [h0, show after_elements 0 (c :: rest) = c :: rest from rfl,
              trim_cons_ws c rest hc]
          · rw [rem_finish_cons_ws_in_more _ _ _ hc hl,
              (ih rest hrest).2 (left - 1) (by omega),
              after_elements_cons_ws (left - 1) c rest (by omega) hc]
        · have hcf : is_ascii_whitespace c = false := by
            revert hc
            cases is_ascii_whitespace c <;> simp
          have hdw : (c :: rest).dropWhile (fun x => !is_ascii_whitespace x)
              = rest.dropWhile (fun x => !is_ascii_whitespace x) := by
            rw [List.dropWhile_cons]
            simp [hcf]
          rw [rem_finish_cons_nonws _ _ _ _ hcf, hdw, (ih rest hrest).1 left h1]
      · intro left h1
        by_cases hc : is_ascii_whitespace c = true
        · rw [rem_finish_cons_ws_out _ _ _ hc, (ih rest hrest).2 left h1,
            after_elements_cons_ws left c rest h1 hc]
        · have hcf : is_ascii_whitespace c = false := by
            revert hc
            cases is_ascii_whitespace c <;> simp
          rw [rem_finish_cons_nonws _ _ _ _ hcf, (ih rest hrest).1 left h1]
          obtain ⟨k, rfl⟩ : ∃ k, left = k + 1 := ⟨left - 1, by omega⟩
          simp only [Nat.add_sub_cancel]
          have h2 : List.dropWhile is_ascii_whitespace (c :: rest) = c :: rest := by
            rw [List.dropWhile_cons, if_neg (by simp [hcf])]
          have h3 : List.dropWhile (fun x => !is_ascii_whitespace x) (c :: rest)
              = List.dropWhile (fun x => !is_ascii_whitespace x) rest := by
            rw [List.dropWhile_cons, if_pos (by simp [hcf])]
          rw [show after_elements (k + 1) (c :: rest)
              = after_elements k ((List.dropWhile is_ascii_whitespace
                  (c :: rest)).dropWhile (fun x => !is_ascii_whitespace x)) from rfl,
            h2, h3]

theorem is_job_first_char (c : Char) (rest : Str)
    (h : is_job (c :: rest) = true) : is_ascii_whitespace c = false := by
  unfold is_job at h
  rw [show str "0123456789*@"
      = ['0', '1', '2', '3', '4', '5', '6', '7', '8', '9', '*', '@'] from rfl] at h
  have hmem : c ∈ (['0', '1', '2', '3', '4', '5', '6', '7', '8', '9', '*', '@'] : Str) := by
    simpa using h
  fin_cases hmem <;> rfl

/-- C6: for every job line (first character a digit, `*` or `@`) with
no trailing whitespace (`parse` hands the splitter trimmed lines), the
stored schedule is exactly the first whitespace-delimited element when
the line starts with `@` and exactly the first five otherwise, joined
by single spaces; the command is the raw suffix of the line after
those elements, trimmed at both ends, its internal whitespace
untouched; and when either part comes out empty, the line is emitted
as an `Unknown` token carrying the trimmed line, as happens for the
incomplete schedule `* * *`. -/
theorem C6_positional_schedule_and_command_split :
    (∀ (c : Char) (rest : Str),
      is_job (c :: rest) = true → last_non_ws (c :: rest) = true →
      split_schedule_and_command (c :: rest)
        = some (join_elements ((ascii_words (c :: rest)).take
              (if c = '@' then 1 else 5)),
            trim (after_elements (if c = '@' then 1 else 5) (c :: rest))))
  ∧ (∀ (line : Str) (state : ParserState) (schedule command : Str),
      is_job line = true →
      split_schedule_and_command line = some (schedule, command) →
      (schedule = [] ∨ command = []) →
      make_token_from_line line state = some (Token.Unknown ⟨line⟩, state))
  ∧ parse (str "* * *") = some [Token.Unknown ⟨str "* * *"⟩] := by
  refine ⟨?_, ?_, by decide⟩
  · intro c rest hj hlast
    have hcf : is_ascii_whitespace c = false := is_job_first_char c rest hj
    have htpos : 0 < (if c = '@' then 1 else 5) := by
      split <;> omega
    obtain ⟨k, hk⟩ : ∃ k, (if c = '@' then 1 else 5) = k + 1 :=
      ⟨(if c = '@' then 1 else 5) - 1, by omega⟩
    unfold split_schedule_and_command extract_schedule_from_job_chars
    rw [show (Option.map (fun p => (p.1, trim p.2))
        (some (extract_schedule_loop rest [c] (if c = '@' then 1 else 5) 0 c))
          : Option (Str × Str))
        = some ((extract_schedule_loop rest [c] (if c = '@' then 1 else 5) 0 c).1,
            trim (extract_schedule_loop rest [c]
              (if c = '@' then 1 else 5) 0 c).2) from rfl]
    rw [extract_schedule_loop_eq rest [c] _ 0 c htpos]
    simp only [hcf, Bool.not_false, Nat.sub_zero]
    have hsf : sched_finish rest (if c = '@' then 1 else 5) true
        = rest.takeWhile (fun x => !is_ascii_whitespace x)
          ++ sep_join ((ascii_words (rest.dropWhile
              (fun x => !is_ascii_whitespace x))).take
            ((if c = '@' then 1 else 5) - 1)) := by
      by_cases hrne : rest = []
      · subst hrne
        simp [sched_finish, ascii_words, sep_join]
      · exact (sf_words rest.length rest le_rfl).1 _ (by omega)
          (last_non_ws_cons c rest hlast hrne)
    have hrm : trim (rem_finish rest (if c = '@' then 1 else 5) true)
        = trim (after_elements ((if c = '@' then 1 else 5) - 1)
            (rest.dropWhile (fun x => !is_ascii_whitespace x))) :=
      (rm_after rest.length rest le_rfl).1 _ (by omega)
    rw [hsf, hrm]
    have hwords : ascii_words (c :: rest)
        = (c :: rest.takeWhile (fun x => !is_ascii_whitespace x))
          :: ascii_words (rest.dropWhile (fun x => !is_ascii_whitespace x)) := by
      simp [ascii_words, hcf]
    rw [hwords, hk, List.take_succ_cons,
      show join_elements ((c :: rest.takeWhile (fun x => !is_ascii_whitespace x))
          :: (ascii_words (rest.dropWhile
            (fun x => !is_ascii_whitespace x))).take k)
        = (c :: rest.takeWhile (fun x => !is_ascii_whitespace x))
          ++ sep_join ((ascii_words (rest.dropWhile
            (fun x => !is_ascii_whitespace x))).take k) from rfl]
    have hae : after_elements (k + 1) (c :: rest)
        = after_elements k (rest.dropWhile (fun x => !is_ascii_whitespace x)) := by
      have h2 : List.dropWhile is_ascii_whitespace (c :: rest) = c :: rest := by
        rw [List.dropWhile_cons, if_neg (by simp [hcf])]
      have h3 : List.dropWhile (fun x => !is_ascii_whitespace x) (c :: rest)
          = List.dropWhile (fun x => !is_ascii_whitespace x) rest := by
        rw [List.dropWhile_cons, if_pos (by simp [hcf])]
      rw [show after_elements (k + 1) (c :: rest)
          = after_elements k ((List.dropWhile is_ascii_whitespace
              (c :: rest)).dropWhile (fun x => !is_ascii_whitespace x)) from rfl,
        h2, h3]
    rw [hae]
    have hk1 : k + 1 - 1 = k := by omega
    rw [hk1]
    simp
  · intro line state schedule command hj hsplit hor
    unfold make_token_from_line
    rw [if_pos hj]
    unfold make_token_from_job_line
    have hjob : make_job_token line state = some (Except.error ()) := by
      unfold make_job_token
      rw [hsplit]
      have hemp : (schedule.isEmpty || command.isEmpty) = true := by
        rcases hor with h | h <;> subst h <;> simp
      simp only [hemp, if_true]
    rw [hjob]
    rfl

end Cronrunner
